import Mathlib

/-!
Verification of the reconciliation host of `solid-three` (src revision with the
four-element `RESERVED_PROPS` list, which is the revision the specification
describes; the near-duplicate alternate revision is noted where it differs).

The development has two layers:

* a *value model* (`SolidThree.JVal`) — a value-semantics embedding of the
  JavaScript data the path resolver, property applier and attachment manager
  manipulate.  Objects carry an identity (`oid`), capability flags mirroring
  the runtime capability probes (`target?.set`, `target.copy`,
  `target.setScalar`, `instanceof THREE.Color`), own properties (`slots`), and
  a log of the mutate-in-place method calls made on them (`ops`), since the
  internal effect of `set`/`copy`/`setScalar` belongs to the external THREE
  library and is specified only at its interface boundary;

* a *host model* (`SolidThree.HostState`) — a heap of tree nodes (`Instance`)
  and graph objects (`ObjData`) with an event trace, embedding
  `createElement`, `insertNode`, `removeNode` and `getNextSibling`.
  Slot-level effects of `applyProps`/`attach`/`detach` on live objects are
  modelled in the value layer; the host trace records when those calls happen.
-/

set_option maxRecDepth 4000

namespace SolidThree

/-! ### Generic association-list and list helpers -/

def assocFind {α : Type} [DecidableEq α] {β : Type} : List (α × β) → α → Option β
  | [], _ => none
  | (k, v) :: rest, a => if k = a then some v else assocFind rest a

def assocSet {α : Type} [DecidableEq α] {β : Type} : List (α × β) → α → β → List (α × β)
  | [], a, b => [(a, b)]
  | (k, v) :: rest, a, b => if k = a then (a, b) :: rest else (k, v) :: assocSet rest a b

def assocHas {α : Type} [DecidableEq α] {β : Type} (l : List (α × β)) (a : α) : Bool :=
  (assocFind l a).isSome

def assocDel {α : Type} [DecidableEq α] {β : Type} : List (α × β) → α → List (α × β)
  | [], _ => []
  | (k, v) :: rest, a => if k = a then assocDel rest a else (k, v) :: assocDel rest a

def idxOf {α : Type} [DecidableEq α] : List α → α → Option Nat
  | [], _ => none
  | x :: rest, a => if x = a then some 0 else (idxOf rest a).map (· + 1)

/-- `Array.prototype.splice(i, 0, a)`: insert at index `i`, appending when `i`
is at or past the end. -/
def insertIdxJ {α : Type} : List α → Nat → α → List α
  | l, 0, a => a :: l
  | [], _ + 1, a => [a]
  | x :: rest, n + 1, a => x :: insertIdxJ rest n a

/-- Set index `i`, extending with `pad` when the index is past the end
(JS arrays grow on out-of-range index assignment). -/
def listSet {α : Type} (pad : α) : List α → Nat → α → List α
  | [], 0, a => [a]
  | [], n + 1, a => pad :: listSet pad [] n a
  | _ :: rest, 0, a => a :: rest
  | x :: rest, n + 1, a => x :: listSet pad rest n a

/-! ### The value model -/

/-- Runtime capabilities of a constructed object, as probed by the source:
`ctor` stands for the object's constructor (`x.constructor` comparison is by
constructor identity, modelled by name), `hasSet` for the truthiness of
`x.set`, `hasCopy` for `x.copy`, `hasSetScalar` for `x.setScalar`, `isColor`
for `x instanceof THREE.Color`. -/
structure Caps where
  ctor : String
  hasSet : Bool
  hasCopy : Bool
  hasSetScalar : Bool
  isColor : Bool
deriving DecidableEq, Repr

/-- JavaScript values as the resolver/applier/attachment code observes them.
`obj` carries an identity `oid` (standing for the reference), capabilities,
own properties, and the log of mutate-in-place calls (`copy`, `set`,
`setScalar`) made on it.  `tok` stands for a stored reversal callback of a
function-valued attach descriptor (defunctionalised; see `AttachEnv`). -/
inductive JVal where
  | undefV : JVal
  | num : Int → JVal
  | str : String → JVal
  | arr : List JVal → JVal
  | obj : Nat → Caps → List (String × JVal) → List (String × List JVal) → JVal
  | tok : Nat → JVal

/-- A JS array index key: a non-empty all-digit string, read as a number
(array element access goes through such keys). -/
def jsIndex? (s : String) : Option Nat :=
  if s.data ≠ [] ∧ s.data.all Char.isDigit then
    some (s.data.foldl (fun a c => a * 10 + (c.toNat - 48)) 0)
  else none

/-- Property read `v[k]`: own property of an object, element of an array at a
numeric key, `undefined` everywhere else. -/
def getSlot : JVal → String → JVal
  | .obj _ _ slots _, k => (assocFind slots k).getD .undefV
  | .arr xs, k =>
    match jsIndex? k with
    | some i => (xs[i]?).getD .undefV
    | none => .undefV
  | _, _ => .undefV

/-- Property write `v[k] := x`.  Writing to a primitive is modelled as a no-op
(at runtime, strict mode raises there; no claim depends on that cell). -/
def setSlotJ : JVal → String → JVal → JVal
  | .obj oid c slots ops, k, x => .obj oid c (assocSet slots k x) ops
  | .arr xs, k, x =>
    match jsIndex? k with
    | some i => .arr (listSet .undefV xs i x)
    | none => .arr xs
  | v, _, _ => v

/-- `delete v[k]`. -/
def delSlot : JVal → String → JVal
  | .obj oid c slots ops, k => .obj oid c (assocDel slots k) ops
  | v, _ => v

def hasSlot : JVal → String → Bool
  | .obj _ _ slots _, k => assocHas slots k
  | .arr xs, k =>
    match jsIndex? k with
    | some i => decide (i < xs.length)
    | none => false
  | _, _ => false

/-- Truthiness of `v?.set`. -/
def jHasSet : JVal → Bool
  | .obj _ c _ _ => c.hasSet
  | _ => false

/-- Truthiness of `v.copy`. -/
def jHasCopy : JVal → Bool
  | .obj _ c _ _ => c.hasCopy
  | _ => false

/-- Truthiness of `v.setScalar`. -/
def jHasSetScalar : JVal → Bool
  | .obj _ c _ _ => c.hasSetScalar
  | _ => false

/-- `v instanceof THREE.Color`. -/
def jIsColor : JVal → Bool
  | .obj _ c _ _ => c.isColor
  | _ => false

/-- `Array.isArray(v)`. -/
def jIsArray : JVal → Bool
  | .arr _ => true
  | _ => false

def jIsObj : JVal → Bool
  | .obj _ _ _ _ => true
  | _ => false

/-- The identity of an object value (the reference it stands for). -/
def oidOf : JVal → Option Nat
  | .obj oid _ _ _ => some oid
  | _ => none

/-- `v.constructor`, compared by identity in the source; `undefined` and
`null` have no constructor (the runtime would raise on the access; modelled as
never matching). -/
def ctorName : JVal → Option String
  | .undefV => none
  | .num _ => some "Number"
  | .str _ => some "String"
  | .arr _ => some "Array"
  | .obj _ c _ _ => some c.ctor
  | .tok _ => none

def getArr : JVal → List JVal
  | .arr xs => xs
  | _ => []

/-! ### Key splitting (`key.includes('-')`, `key.split('-')`) -/

def containsDash (s : String) : Bool := s.data.any (· = '-')

def splitDashChars : List Char → List (List Char)
  | [] => [[]]
  | c :: rest =>
    let r := splitDashChars rest
    if c = '-' then [] :: r
    else
      match r with
      | h :: t => (c :: h) :: t
      | [] => [[c]]

/-- `String.prototype.split('-')`. -/
def splitDash (s : String) : List String :=
  (splitDashChars s.data).map fun l => String.mk l

/-- Walk a chain of keys left to right (`chain.reduce((acc, key) => acc[key], root)`). -/
def walk (root : JVal) (chain : List String) : JVal :=
  chain.foldl getSlot root

/-! ### The path resolver (`resolve`) -/

/-- `resolve(root, key)` from the source: returns `(root, key, target)`.
Non-pierced keys resolve trivially; a pierced key is walked left to right, the
final segment becomes the key, and the root is rewound to the parent of the
leaf exactly when the resolved target has no settor. -/
def resolve (root : JVal) (key : String) : JVal × String × JVal :=
  let target := getSlot root key
  if ¬ containsDash key then (root, key, target)
  else
    let chain := splitDash key
    let target := walk root chain
    let key := (chain.getLast?).getD ""
    let chain := chain.dropLast
    let root := if ¬ jHasSet target then walk root chain else root
    (root, key, target)

/-- `resolve`, returning the effective root as a path from the original root
instead of as a value, so that in the value semantics a write through the
returned root can be performed on the original root.  `walk root path`
recovers `resolve`'s root (`resolve_eq_resolveLoc`). -/
def resolveLoc (root : JVal) (key : String) : List String × String × JVal :=
  if ¬ containsDash key then ([], key, getSlot root key)
  else
    let chain := splitDash key
    let target := walk root chain
    let leaf := (chain.getLast?).getD ""
    (if ¬ jHasSet target then chain.dropLast else [], leaf, target)

/-- The (full-chain) path of the resolved target below the original root. -/
def targetPath (key : String) : List String :=
  if containsDash key then splitDash key else [key]

/-! ### Write-back helpers for the value semantics -/

/-- Apply `f` to the value at `path` below `v`, rebuilding the spine. -/
def mapAt (f : JVal → JVal) : JVal → List String → JVal
  | v, [] => f v
  | v, s :: rest => setSlotJ v s (mapAt f (getSlot v s) rest)

/-- `root[key] = x` where `root = walk v path`. -/
def writeAt (v : JVal) (path : List String) (key : String) (x : JVal) : JVal :=
  mapAt (fun c => setSlotJ c key x) v path

/-- Record a mutate-in-place method call on an object (interface boundary of
the external THREE library). -/
def pushOp (op : String × List JVal) : JVal → JVal
  | .obj oid c slots ops => .obj oid c slots (ops ++ [op])
  | v => v

/-- `target.copy(src)`: the target keeps its identity and receives the
source's state (recorded at the interface boundary). -/
def copyInto (src : JVal) : JVal → JVal
  | .obj oid c slots ops => .obj oid c slots (ops ++ [("copy", [src])])
  | v => v

/-! ### The property applier (`applyProps`) -/

/-- Internal instance props that are never written to objects. -/
def RESERVED_PROPS : List String := ["args", "object", "dispose", "attach"]

/-- The five write strategies of the property applier. -/
inductive Action where
  | assign : Action
  | copy : Action
  | setSpread : Action
  | scalar : Action
  | setOne : Action
deriving DecidableEq, Repr

/-- One non-reserved property write of `applyProps`, returning the updated
object and the strategy the code took:
plain assignment when the target has no settor; `target.copy(value)` when the
target has a copy method and the value's constructor is the target's;
`target.set(...value)` for array values; `target.setScalar(value)` for
non-color targets with a scalar settor; otherwise `target.set(value)`. -/
def applyProp (object : JVal) (prop : String) (value : JVal) : JVal × Action :=
  let r := resolveLoc object prop
  let path := r.1
  let key := r.2.1
  let target := r.2.2
  if ¬ jHasSet target then (writeAt object path key value, .assign)
  else if jHasCopy target = true ∧ ctorName target = ctorName value then
    (mapAt (copyInto value) object (targetPath prop), .copy)
  else if jIsArray value then
    (mapAt (pushOp ("set", getArr value)) object (targetPath prop), .setSpread)
  else if ¬ jIsColor target ∧ jHasSetScalar target then
    (mapAt (pushOp ("setScalar", [value])) object (targetPath prop), .scalar)
  else
    (mapAt (pushOp ("set", [value])) object (targetPath prop), .setOne)

/-- `applyProps(object, props)`: write each property, skipping reserved keys. -/
def applyProps (object : JVal) (props : List (String × JVal)) : JVal :=
  props.foldl
    (fun o pv => if RESERVED_PROPS.contains pv.1 then o else (applyProp o pv.1 pv.2).1)
    object

/-- The write-strategy priority exactly as the specification words it: no
settor — plain assignment; else copy support and exact same constructor —
copy; else array value — spread into `set`; else non-color with `setScalar` —
scalar shorthand; else single-argument `set`. -/
def strategySpec (target value : JVal) : Action :=
  if ¬ jHasSet target then .assign
  else if jHasCopy target = true ∧ ctorName target = ctorName value then .copy
  else if jIsArray value then .setSpread
  else if ¬ jIsColor target ∧ jHasSetScalar target then .scalar
  else .setOne

/-! ### The attachment manager (`attach` / `detach`) -/

/-- An attach descriptor: a string path, or a function (defunctionalised to an
index into an `AttachEnv`). -/
inductive AttachDescr where
  | path : String → AttachDescr
  | fn : Nat → AttachDescr
deriving DecidableEq, Repr

/-- Environment interpreting function-valued attach descriptors: `fenv i`
is the user's attach callback (given parent and child objects it returns the
mutated parent object and a reversal token), `renv r` is the reversal callback
the token stands for. -/
structure AttachEnv where
  fenv : Nat → JVal → JVal → JVal × Nat
  renv : Nat → JVal → JVal → JVal

/-- `INDEX_REGEX.test`: a dash-cased string ending with `-` and one or more
digits. -/
def indexRegexTest (s : String) : Bool :=
  let r := s.data.reverse
  let ds := r.takeWhile Char.isDigit
  decide (ds ≠ []) && decide ((r.drop ds.length).head? = some '-')

/-- `attach.replace(INDEX_REGEX, '')`: strip the trailing `-digits`. -/
def stripIndex (s : String) : String :=
  if indexRegexTest s then
    let r := s.data.reverse
    let ds := r.takeWhile Char.isDigit
    String.mk ((r.drop (ds.length + 1)).reverse)
  else s

/-- `attach(parent, child)` on the objects: for a string descriptor, first
initialise the container as an array when the path carries a trailing array
slot index and the container is not yet an array; then resolve the path, store
the slot's previous occupant on the child object under `__previousAttach`, and
overwrite the slot with the child object.  For a function descriptor, invoke
it and store the returned reversal under the same field. -/
def attach (env : AttachEnv) (parentObj childObj : JVal) : AttachDescr → JVal × JVal
  | .path s =>
    let parentObj :=
      if indexRegexTest s then
        let t := stripIndex s
        let r := resolveLoc parentObj t
        if ¬ jIsArray (getSlot (walk parentObj r.1) r.2.1) then
          writeAt parentObj r.1 r.2.1 (.arr [])
        else parentObj
      else parentObj
    let r := resolveLoc parentObj s
    let prev := getSlot (walk parentObj r.1) r.2.1
    let childObj := setSlotJ childObj "__previousAttach" prev
    (writeAt parentObj r.1 r.2.1 childObj, childObj)
  | .fn i =>
    let pr := env.fenv i parentObj childObj
    (pr.1, setSlotJ childObj "__previousAttach" (.tok pr.2))

/-- `detach(parent, child)`: for a string descriptor, restore the recorded
previous occupant into the resolved slot; for a function descriptor, invoke
the stored reversal; then delete the bookkeeping field. -/
def detach (env : AttachEnv) (parentObj childObj : JVal) : AttachDescr → JVal × JVal
  | .path s =>
    let r := resolveLoc parentObj s
    (writeAt parentObj r.1 r.2.1 (getSlot childObj "__previousAttach"),
     delSlot childObj "__previousAttach")
  | .fn _ =>
    let p :=
      match getSlot childObj "__previousAttach" with
      | .tok r => env.renv r parentObj childObj
      | _ => parentObj
    (p, delSlot childObj "__previousAttach")

/-! ### Navigability predicates used by the attach/detach round-trip -/

/-- Every step of the path lands on a present own property (of an object, or
an in-range index of an array). -/
def pathNav : JVal → List String → Bool
  | _, [] => true
  | p, s :: rest => hasSlot p s && pathNav (getSlot p s) rest

/-- The path is navigable and the leaf key is present on the container it
lands on. -/
def slotPathOk (p : JVal) (path : List String) (k : String) : Bool :=
  pathNav p path && hasSlot (walk p path) k

/-! ### The host model -/

/-- The shape of a catalogue class, as far as the host probes it:
`instanceof THREE.Object3D` / `BufferGeometry` / `Material`, and whether
constructed instances carry a `dispose` method. -/
structure ClassSpec where
  isObject3D : Bool
  isBufferGeometry : Bool
  isMaterial : Bool
  hasDispose : Bool
deriving DecidableEq, Repr

/-- A graph object on the heap: its class capabilities, its `Object3D`
children and parent links, and how many times `dispose()` has run on it. -/
structure ObjData where
  cls : ClassSpec
  childrenO : List Nat
  parentO : Option Nat
  disposeCount : Nat
deriving Repr

/-- The declared props of a tree node.  `args`, `object`, `dispose` and
`attach` mirror the reserved keys (`disposeNull` is `props.dispose === null`,
the dispose-suppression flag); `rest` holds the remaining declared properties
(whose slot-level effect is modelled by the value layer's `applyProps`). -/
structure InstanceProps where
  args : Option (List JVal)
  objectP : Option Nat
  disposeNull : Bool
  attachP : Option AttachDescr
  rest : List (String × JVal)

/-- A tree node (`Instance` in the source): type name, tree links by node id,
the committed object by object id (absent before first commit), and props. -/
structure Instance where
  type : String
  parent : Option Nat
  children : List Nat
  object : Option Nat
  props : InstanceProps

/-- Events recorded by the host in program order: object construction,
initial `applyProps` at commit, attach/detach calls (their slot-level effect
lives in the value layer), graph child-list changes (the `added` / `removed`
dispatches), tree unlinking, and `dispose()` invocations. -/
inductive Ev where
  | constructed : Nat → Ev
  | initialProps : Nat → Ev
  | attached : Nat → Ev
  | detached : Nat → Ev
  | graphAdded : Nat → Ev
  | graphRemoved : Nat → Ev
  | unlinked : Nat → Ev
  | disposed : Nat → Ev
deriving DecidableEq, Repr

/-- The host's mutable world: the catalogue, the node and object heaps
(ids stand for references), a fresh-id counter and the event trace. -/
structure HostState where
  catalogue : List (String × ClassSpec)
  nodes : List (Nat × Instance)
  objs : List (Nat × ObjData)
  fresh : Nat
  trace : List Ev

def defaultInstance : Instance :=
  ⟨"", none, [], none, ⟨none, none, false, none, []⟩⟩

def defaultObjData : ObjData := ⟨⟨false, false, false, false⟩, [], none, 0⟩

/-- Dereference a node id (ids stand for references; a dangling id yields an
inert default). -/
def getNodeD (s : HostState) (nid : Nat) : Instance :=
  (assocFind s.nodes nid).getD defaultInstance

def getObjD (s : HostState) (oid : Nat) : ObjData :=
  (assocFind s.objs oid).getD defaultObjData

def updNode (s : HostState) (nid : Nat) (f : Instance → Instance) : HostState :=
  { s with nodes := assocSet s.nodes nid (f (getNodeD s nid)) }

def updObj (s : HostState) (oid : Nat) (f : ObjData → ObjData) : HostState :=
  { s with objs := assocSet s.objs oid (f (getObjD s oid)) }

def pushTrace (s : HostState) (e : Ev) : HostState :=
  { s with trace := s.trace ++ [e] }

/-- Truthiness of `child.props.attach` (the empty string is falsy). -/
def attachTruthy : Option AttachDescr → Bool
  | none => false
  | some (.path s) => decide (s ≠ "")
  | some (.fn _) => true

/-- Does the node's object exist and satisfy `instanceof THREE.Object3D`
(`null instanceof` is false)? -/
def nodeObjIs3D (s : HostState) (nid : Nat) : Bool :=
  match (getNodeD s nid).object with
  | some o => (getObjD s o).cls.isObject3D
  | none => false

/-- Capitalise the first letter
(`type.charAt(0).toUpperCase() + type.substring(1)`). -/
def pascalCase (s : String) : String :=
  match s.data with
  | [] => ""
  | c :: cs => String.mk (c.toUpper :: cs)

/-- `extend(objects)`: merge additional name-to-class entries into the
catalogue. -/
def extend (objects : List (String × ClassSpec)) (s : HostState) : HostState :=
  { s with catalogue := objects.foldl (fun c kv => assocSet c kv.1 kv.2) s.catalogue }

/-- `createElement(type)`: allocate an uncommitted node with no parent, no
children, no object, and an args-only prop set. -/
def createElement (type : String) (s : HostState) : HostState × Nat :=
  let nid := s.fresh
  ({ s with
     fresh := nid + 1,
     nodes := assocSet s.nodes nid ⟨type, none, [], none, ⟨some [], none, false, none, []⟩⟩ },
   nid)

/-- `THREE.Object3D.prototype.remove`: splice the child object out of the
children list and null its parent when present; dispatch `removed`. -/
def Object3D_remove (s : HostState) (po co : Nat) : HostState :=
  match idxOf (getObjD s po).childrenO co with
  | none => s
  | some i =>
    let s := updObj s co fun d => { d with parentO := none }
    let s := updObj s po fun d => { d with childrenO := d.childrenO.eraseIdx i }
    pushTrace s (.graphRemoved co)

/-- `THREE.Object3D.prototype.add`: detach the child object from any previous
parent, link it, append it to the children list; dispatch `added`
(adding an object to itself is refused). -/
def Object3D_add (s : HostState) (po co : Nat) : HostState :=
  if po = co then s
  else
    let s :=
      match (getObjD s co).parentO with
      | some old => Object3D_remove s old co
      | none => s
    let s := updObj s co fun d => { d with parentO := some po }
    let s := updObj s po fun d => { d with childrenO := d.childrenO ++ [co] }
    pushTrace s (.graphAdded co)

/-- The opening statements of `removeNode`: null the child's parent link and
splice the child out of the parent's children when its index is found. -/
def unlinkStep (s0 : HostState) (pid cid : Nat) : HostState :=
  let s1 := updNode s0 cid fun n => { n with parent := none }
  let s2 :=
    match idxOf (getNodeD s1 pid).children cid with
    | some i => updNode s1 pid fun n => { n with children := n.children.eraseIdx i }
    | none => s1
  pushTrace s2 (.unlinked cid)

/-- The middle statements of `removeNode`: detach via the attach prop
(raising when the child has no object, as the bookkeeping read would), or
remove the child's object from the parent's graph object when both are
`Object3D`. -/
def graphUnlink (s2 : HostState) (pid cid : Nat) : Except String HostState :=
  let child := getNodeD s2 cid
  if attachTruthy child.props.attachP then
    match child.object with
    | none => Except.error "TypeError: cannot read __previousAttach of null"
    | some _ => Except.ok (pushTrace s2 (.detached cid))
  else if nodeObjIs3D s2 pid && nodeObjIs3D s2 cid then
    match (getNodeD s2 pid).object, child.object with
    | some po, some co => Except.ok (Object3D_remove s2 po co)
    | _, _ => Except.ok s2
  else Except.ok s2

/-- The final statement of `removeNode`: dispose of the child's object unless
disposal is suppressed by a null `dispose` prop or the node is a primitive;
`dispose?.()` only fires when the object has a dispose method. -/
def disposeStep (s3 : HostState) (child : Instance) : Except String HostState :=
  if child.props.disposeNull = false ∧ child.type ≠ "primitive" then
    match child.object with
    | none => Except.error "TypeError: cannot read dispose of null"
    | some o =>
      if (getObjD s3 o).cls.hasDispose then
        Except.ok (pushTrace
          (updObj s3 o fun d => { d with disposeCount := d.disposeCount + 1 })
          (.disposed o))
      else Except.ok s3
  else Except.ok s3

/-- `removeNode(parent, child)`: null the child's parent link, splice the
child out of the parent's children when present, then detach or remove the
object from the graph, then dispose unless suppressed or primitive. -/
def removeNode (s0 : HostState) (pid cid : Nat) : Except String HostState :=
  let s2 := unlinkStep s0 pid cid
  match graphUnlink s2 pid cid with
  | Except.error e => Except.error e
  | Except.ok s3 => disposeStep s3 (getNodeD s2 cid)

def primErrMsg : String := "object must be set when using primitives!"

def catErrMsg (t : String) : String :=
  t ++ " is not a part of the THREE catalog! Did you forget to extend?"

/-- The auto-attach statements of the commit block: when no attach prop was
declared, default it for geometry-like and material-like objects. -/
def autoAttach (s1 : HostState) (cid oid : Nat) : HostState :=
  if ((getNodeD s1 cid).props.attachP).isNone then
    if (getObjD s1 oid).cls.isBufferGeometry then
      updNode s1 cid fun n =>
        { n with props := { n.props with attachP := some (AttachDescr.path "geometry") } }
    else if (getObjD s1 oid).cls.isMaterial then
      updNode s1 cid fun n =>
        { n with props := { n.props with attachP := some (AttachDescr.path "material") } }
    else s1
  else s1

/-- The commit block of `insertNode`: when the child has no object yet, link
the pre-supplied object for a primitive (erroring when absent) or construct
from the catalogue (erroring on an unknown type), auto-default the attach
slot for geometry/material objects, and apply the initial props. -/
def commitNode (s0 : HostState) (cid : Nat) : Except String (HostState) :=
  let child := getNodeD s0 cid
  match child.object with
  | some _ => Except.ok s0
  | none =>
    let objRes : Except String (HostState × Nat) :=
      if child.type = "primitive" then
        match child.props.objectP with
        | none => Except.error primErrMsg
        | some oid =>
          Except.ok (updNode s0 cid fun n => { n with object := some oid }, oid)
      else
        match assocFind s0.catalogue (pascalCase child.type) with
        | none => Except.error (catErrMsg child.type)
        | some cls =>
          let oid := s0.fresh
          let s := { s0 with
                     fresh := oid + 1,
                     objs := assocSet s0.objs oid ⟨cls, [], none, 0⟩,
                     trace := s0.trace ++ [Ev.constructed oid] }
          Except.ok (updNode s cid fun n => { n with object := some oid }, oid)
    match objRes with
    | Except.error e => Except.error e
    | Except.ok (s1, oid) => Except.ok (pushTrace (autoAttach s1 cid oid) (.initialProps oid))

/-- The graph-placement statements of `insertNode` once parent and child
objects are both `Object3D`: when a live sibling occupies the before-child's
graph slot the host removes that node (via `removeNode`) and splices the
child's object at its index, otherwise it falls back to `Object3D#add`. -/
def graphPlace (s2 : HostState) (pid : Nat) (bc : Option Nat) (po co : Nat) :
    Except String HostState :=
  let bcObj : Option Nat :=
    match bc with
    | none => none
    | some b => (getNodeD s2 b).object
  let objectIndex : Option Nat :=
    match bcObj with
    | none => none
    | some bo => idxOf (getObjD s2 po).childrenO bo
  match objectIndex, bc with
  | some i, some b =>
    match removeNode s2 pid b with
    | Except.error e => Except.error e
    | Except.ok s3 =>
      let s4 := updObj s3 co fun d => { d with parentO := some po }
      let s5 := updObj s4 po fun d => { d with childrenO := insertIdxJ d.childrenO i co }
      Except.ok (pushTrace s5 (.graphAdded co))
  | _, _ => Except.ok (Object3D_add s2 po co)

/-- The linking statements of `insertNode`: wire parent/children, then
attach, place in the graph, or do nothing. -/
def linkPhase (s1 : HostState) (pid cid : Nat) (bc : Option Nat) : Except String HostState :=
  let s2 := updNode s1 cid fun n => { n with parent := some pid }
  let s2 := updNode s2 pid fun n => { n with children := n.children ++ [cid] }
  let child := getNodeD s2 cid
  if attachTruthy child.props.attachP then
    Except.ok (pushTrace s2 (.attached cid))
  else if nodeObjIs3D s2 pid && nodeObjIs3D s2 cid then
    match (getNodeD s2 pid).object, child.object with
    | some po, some co => graphPlace s2 pid bc po co
    | _, _ => Except.ok s2
  else Except.ok s2

/-- `insertNode(parent, child, beforeChild)`: commit the child if needed,
then link it into the tree and the graph or an attach slot. -/
def insertNode (s0 : HostState) (pid cid : Nat) (bc : Option Nat) : Except String HostState :=
  match commitNode s0 cid with
  | Except.error e => Except.error e
  | Except.ok s1 => linkPhase s1 pid cid bc

/-- `getNextSibling(node)`: index the node in its parent's children
(raising when the parent link is null), then read the node's own
`children[index + 1]`. -/
def getNextSibling (s : HostState) (nid : Nat) : Except String (Option Nat) :=
  let node := getNodeD s nid
  match node.parent with
  | none => Except.error "TypeError: cannot read children of null"
  | some p =>
    let index : Int :=
      match idxOf (getNodeD s p).children nid with
      | some i => (i : Int)
      | none => -1
    Except.ok (node.children[(index + 1).toNat]?)

/-- `getParentNode(node)`. -/
def getParentNode (s : HostState) (nid : Nat) : Option Nat :=
  (getNodeD s nid).parent

/-- `getFirstChild(node)`. -/
def getFirstChild (s : HostState) (nid : Nat) : Option Nat :=
  (getNodeD s nid).children[0]?

/-- Is an event one of the commit events (construction / initial property
application)? -/
def isCommitEv : Ev → Bool
  | .constructed _ => true
  | .initialProps _ => true
  | _ => false

def isConstructedEv : Ev → Bool
  | .constructed _ => true
  | _ => false

def isInitialPropsEv : Ev → Bool
  | .initialProps _ => true
  | _ => false

/-! ### Concrete inputs used by witnesses and counterexamples -/

def capsPlain : Caps := ⟨"Object3D", false, false, false, false⟩

def capsVec : Caps := ⟨"Vector3", true, true, true, false⟩

/-- A parent object `{ foo: { bar: 5 } }` with no settors anywhere. -/
def cexParent : JVal :=
  .obj 0 capsPlain [("foo", .obj 1 capsPlain [("bar", .num 5)] [])] []

/-- A child object exposing a settor (a vector-like). -/
def cexChildSet : JVal := .obj 2 capsVec [] []

/-- A child object with no settor. -/
def cexChildPlain : JVal := .obj 3 capsPlain [] []

/-- A trivial attach-environment (string-path cases never consult it). -/
def envTrivial : AttachEnv := ⟨fun _ p _ => (p, 0), fun _ p _ => p⟩

/-- Attaching the settor-bearing child at the pierced path. -/
def c3attached : JVal × JVal :=
  attach envTrivial cexParent cexChildSet (AttachDescr.path "foo-bar")

/-- Then detaching it again. -/
def c3detached : JVal × JVal :=
  detach envTrivial c3attached.1 c3attached.2 (AttachDescr.path "foo-bar")

/-- A root object `{ a: { b: vector } }` whose nested leaf has a settor. -/
def c6p : JVal :=
  .obj 0 capsPlain [("a", .obj 1 capsPlain [("b", .obj 2 capsVec [] [])] [])] []

/-- An object whose `position` property is a vector-like slot. -/
def c2obj : JVal := .obj 0 capsPlain [("position", .obj 1 capsVec [] [])] []

/-- A vector-like value with the same constructor as `c2obj.position`. -/
def c2val : JVal := .obj 9 capsVec [] []

def c9props : List (String × JVal) :=
  [("args", .num 1), ("visible", .num 1), ("attach", .str "geometry")]

def c9resv : List (String × JVal) :=
  [("args", .num 1), ("object", .num 2), ("dispose", .num 3), ("attach", .num 4)]

def meshCls : ClassSpec := ⟨true, false, false, true⟩

def geomCls : ClassSpec := ⟨false, true, false, true⟩

def propsEmpty : InstanceProps := ⟨some [], none, false, none, []⟩

/-- C4 input: committed parent node 0 (object 0), committed sibling node 1
(object 1, at graph slot 0 of object 0), uncommitted child node 2. -/
def c4s : HostState :=
  { catalogue := [("Mesh", meshCls)],
    nodes := [(0, ⟨"mesh", none, [], some 0, propsEmpty⟩),
              (1, ⟨"mesh", some 0, [], some 1, propsEmpty⟩),
              (2, ⟨"mesh", none, [], none, propsEmpty⟩)],
    objs := [(0, ⟨meshCls, [1], none, 0⟩),
             (1, ⟨meshCls, [], some 0, 0⟩)],
    fresh := 10,
    trace := [] }

/-- C8 input: parent node 0 with children `[1, 2]`; node 1 is childless, node
3 has parent 0 with its own child 7 but is absent from 0's children. -/
def c8s : HostState :=
  { catalogue := [],
    nodes := [(0, ⟨"group", none, [1, 2], some 0, propsEmpty⟩),
              (1, ⟨"mesh", some 0, [], some 1, propsEmpty⟩),
              (2, ⟨"mesh", some 0, [], some 2, propsEmpty⟩),
              (3, ⟨"group", some 0, [7], some 3, propsEmpty⟩)],
    objs := [],
    fresh := 20,
    trace := [] }

/-- C5 / C1 / C7 / C10 inputs: a committed container node 0, an uncommitted
primitive node 1 without `object`, an uncommitted unknown-type node 2, an
uncommitted known-type node 3, a committed node 4 (object 1, in the graph and
in node 0's children), and a committed primitive node 5 (object 2). -/
def c5s : HostState :=
  { catalogue := [("Mesh", meshCls)],
    nodes := [(0, ⟨"container", none, [4], some 0, propsEmpty⟩),
              (1, ⟨"primitive", none, [], none, propsEmpty⟩),
              (2, ⟨"blah", none, [], none, propsEmpty⟩),
              (3, ⟨"mesh", none, [], none, propsEmpty⟩),
              (4, ⟨"mesh", some 0, [], some 1, propsEmpty⟩),
              (5, ⟨"primitive", none, [], some 2, propsEmpty⟩)],
    objs := [(0, ⟨meshCls, [1], none, 0⟩),
             (1, ⟨meshCls, [], some 0, 0⟩),
             (2, ⟨meshCls, [], none, 0⟩)],
    fresh := 30,
    trace := [] }

def c1sInserted : HostState := (insertNode c5s 0 3 none).toOption.getD c5s

def c7sRemoved : HostState := (removeNode c5s 0 4).toOption.getD c5s

/-- C10 input: node 4 is committed but absent from node 0's children. -/
def c10s : HostState :=
  { c5s with
    nodes := [(0, ⟨"container", none, [], some 0, propsEmpty⟩),
              (4, ⟨"mesh", some 0, [], some 1, propsEmpty⟩)] }

/-! ## Lemmas: association lists and list surgery -/

theorem assocFind_assocSet_self {α : Type} [DecidableEq α] {β : Type}
    (l : List (α × β)) (k : α) (v : β) :
    assocFind (assocSet l k v) k = some v := by
  induction l with
  | nil => simp [assocSet, assocFind]
  | cons kv rest ih =>
    obtain ⟨a, b⟩ := kv
    by_cases h : a = k
    · simp [assocSet, h, assocFind]
    · simp [assocSet, h, assocFind, ih]

theorem assocFind_assocSet_ne {α : Type} [DecidableEq α] {β : Type}
    (l : List (α × β)) (k k' : α) (v : β) (h : k' ≠ k) :
    assocFind (assocSet l k v) k' = assocFind l k' := by
  induction l with
  | nil => simp [assocSet, assocFind, Ne.symm h]
  | cons kv rest ih =>
    obtain ⟨a, b⟩ := kv
    by_cases hak : a = k
    · subst hak
      simp [assocSet, assocFind, Ne.symm h]
    · simp [assocSet, hak, assocFind, ih]

theorem assocSet_assocSet {α : Type} [DecidableEq α] {β : Type}
    (l : List (α × β)) (k : α) (v w : β) :
    assocSet (assocSet l k v) k w = assocSet l k w := by
  induction l with
  | nil => simp [assocSet]
  | cons kv rest ih =>
    obtain ⟨a, b⟩ := kv
    by_cases h : a = k
    · simp [assocSet, h]
    · simp [assocSet, h, ih]

theorem assocSet_self_of_find {α : Type} [DecidableEq α] {β : Type}
    (l : List (α × β)) (k : α) (v : β) (h : assocFind l k = some v) :
    assocSet l k v = l := by
  induction l with
  | nil => simp [assocFind] at h
  | cons kv rest ih =>
    obtain ⟨a, b⟩ := kv
    by_cases hak : a = k
    · subst hak
      have hbv : some b = some v := by simpa [assocFind] using h
      simp [assocSet, (Option.some.injEq _ _).mp hbv]
    · have h' : assocFind rest k = some v := by simpa [assocFind, hak] using h
      simp [assocSet, hak, ih h']

theorem assocDel_assocSet {α : Type} [DecidableEq α] {β : Type}
    (l : List (α × β)) (k : α) (v : β) (h : assocHas l k = false) :
    assocDel (assocSet l k v) k = l := by
  induction l with
  | nil => simp [assocSet, assocDel]
  | cons kv rest ih =>
    obtain ⟨a, b⟩ := kv
    by_cases hak : a = k
    · subst hak
      simp [assocHas, assocFind] at h
    · have h' : assocHas rest k = false := by
        simpa [assocHas, assocFind, hak] using h
      simp [assocSet, hak, assocDel, ih h']

theorem assocFind_assocDel_self {α : Type} [DecidableEq α] {β : Type}
    (l : List (α × β)) (k : α) :
    assocFind (assocDel l k) k = none := by
  induction l with
  | nil => simp [assocDel, assocFind]
  | cons kv rest ih =>
    obtain ⟨a, b⟩ := kv
    by_cases hak : a = k
    · simpa [assocDel, hak] using ih
    · simpa [assocDel, hak, assocFind] using ih

theorem assocHas_assocDel {α : Type} [DecidableEq α] {β : Type}
    (l : List (α × β)) (k : α) :
    assocHas (assocDel l k) k = false := by
  simp [assocHas, assocFind_assocDel_self]

theorem listSet_get_self {α : Type} (pad : α) (xs : List α) (i : Nat) (x : α) :
    (listSet pad xs i x)[i]? = some x := by
  induction xs generalizing i with
  | nil =>
    induction i with
    | zero => simp [listSet]
    | succ n ihn => simpa [listSet] using ihn
  | cons y ys ih =>
    cases i with
    | zero => simp [listSet]
    | succ n => simpa [listSet] using ih n

theorem listSet_listSet {α : Type} (pad : α) (xs : List α) (i : Nat) (x y : α) :
    listSet pad (listSet pad xs i x) i y = listSet pad xs i y := by
  induction xs generalizing i with
  | nil =>
    induction i with
    | zero => simp [listSet]
    | succ n ihn => simpa [listSet] using ihn
  | cons z zs ih =>
    cases i with
    | zero => simp [listSet]
    | succ n => simpa [listSet] using ih n

theorem listSet_restore {α : Type} (pad : α) (xs : List α) (i : Nat) (e : α)
    (h : xs[i]? = some e) : listSet pad xs i e = xs := by
  induction xs generalizing i with
  | nil => simp at h
  | cons y ys ih =>
    cases i with
    | zero =>
      simp only [List.getElem?_cons_zero, Option.some.injEq] at h
      simp [listSet, h]
    | succ n =>
      simp only [List.getElem?_cons_succ] at h
      simp [listSet, ih n h]

/-! ## Lemmas: slots, walks and write-backs on values -/

theorem getSlot_setSlotJ_self (p : JVal) (k : String) (x : JVal)
    (h : hasSlot p k = true) :
    getSlot (setSlotJ p k x) k = x := by
  cases p with
  | obj oid c slots ops => simp [getSlot, setSlotJ, assocFind_assocSet_self]
  | arr xs =>
    cases hk : jsIndex? k with
    | none => simp [hasSlot, hk] at h
    | some i => simp [getSlot, setSlotJ, hk, listSet_get_self]
  | undefV => simp [hasSlot] at h
  | num n => simp [hasSlot] at h
  | str t => simp [hasSlot] at h
  | tok t => simp [hasSlot] at h

theorem getSlot_setSlotJ_obj (p : JVal) (k : String) (x : JVal)
    (h : jIsObj p = true) :
    getSlot (setSlotJ p k x) k = x := by
  cases p with
  | obj oid c slots ops => simp [getSlot, setSlotJ, assocFind_assocSet_self]
  | undefV => simp [jIsObj] at h
  | num n => simp [jIsObj] at h
  | str t => simp [jIsObj] at h
  | arr xs => simp [jIsObj] at h
  | tok t => simp [jIsObj] at h

theorem setSlotJ_setSlotJ (p : JVal) (k : String) (x y : JVal) :
    setSlotJ (setSlotJ p k x) k y = setSlotJ p k y := by
  cases p with
  | obj oid c slots ops => simp [setSlotJ, assocSet_assocSet]
  | arr xs =>
    cases hk : jsIndex? k with
    | none => simp [setSlotJ, hk]
    | some i => simp [setSlotJ, hk, listSet_listSet]
  | undefV => rfl
  | num n => rfl
  | str t => rfl
  | tok t => rfl

theorem setSlotJ_getSlot_self (p : JVal) (k : String)
    (h : hasSlot p k = true) :
    setSlotJ p k (getSlot p k) = p := by
  cases p with
  | obj oid c slots ops =>
    simp only [hasSlot, assocHas, Option.isSome_iff_exists] at h
    obtain ⟨v, hv⟩ := h
    simp [getSlot, setSlotJ, hv, assocSet_self_of_find _ _ _ hv]
  | arr xs =>
    cases hk : jsIndex? k with
    | none => simp [hasSlot, hk] at h
    | some i =>
      simp only [hasSlot, hk, decide_eq_true_eq] at h
      have he : xs[i]? = some xs[i] := List.getElem?_eq_getElem h
      simp [getSlot, setSlotJ, hk, he, listSet_restore _ _ _ _ he]
  | undefV => simp [hasSlot] at h
  | num n => simp [hasSlot] at h
  | str t => simp [hasSlot] at h
  | tok t => simp [hasSlot] at h

theorem jHasSet_setSlotJ (p : JVal) (k : String) (x : JVal) :
    jHasSet (setSlotJ p k x) = jHasSet p := by
  cases p with
  | obj oid c slots ops => rfl
  | arr xs => cases hk : jsIndex? k <;> simp [setSlotJ, hk, jHasSet]
  | undefV => rfl
  | num n => rfl
  | str t => rfl
  | tok t => rfl

theorem delSlot_setSlotJ (c : JVal) (k : String) (x : JVal)
    (hobj : jIsObj c = true) (hbk : hasSlot c k = false) :
    delSlot (setSlotJ c k x) k = c := by
  cases c with
  | obj oid cp slots ops =>
    simp only [hasSlot, assocHas] at hbk
    simp [setSlotJ, delSlot, assocDel_assocSet _ _ _ (by simpa [assocHas] using hbk)]
  | undefV => simp [jIsObj] at hobj
  | num n => simp [jIsObj] at hobj
  | str t => simp [jIsObj] at hobj
  | arr xs => simp [jIsObj] at hobj
  | tok t => simp [jIsObj] at hobj

theorem hasSlot_delSlot_previousAttach (v : JVal) :
    hasSlot (delSlot v "__previousAttach") "__previousAttach" = false := by
  cases v with
  | obj oid c slots ops => simp [delSlot, hasSlot, assocHas_assocDel]
  | arr xs =>
    have h0 : jsIndex? "__previousAttach" = none := by decide
    simp [delSlot, hasSlot, h0]
  | undefV => rfl
  | num n => rfl
  | str t => rfl
  | tok t => rfl

theorem walk_nil (p : JVal) : walk p [] = p := rfl

theorem walk_cons (p : JVal) (s : String) (rest : List String) :
    walk p (s :: rest) = walk (getSlot p s) rest := rfl

theorem walk_append (p : JVal) (xs ys : List String) :
    walk p (xs ++ ys) = walk (walk p xs) ys := by
  simp [walk, List.foldl_append]

theorem walk_undef (l : List String) : walk JVal.undefV l = .undefV := by
  induction l with
  | nil => rfl
  | cons s rest ih => simpa [walk_cons, getSlot] using ih

theorem mapAt_nil (f : JVal → JVal) (p : JVal) : mapAt f p [] = f p := rfl

theorem mapAt_cons (f : JVal → JVal) (p : JVal) (s : String) (rest : List String) :
    mapAt f p (s :: rest) = setSlotJ p s (mapAt f (getSlot p s) rest) := rfl

theorem walk_mapAt (f : JVal → JVal) (p : JVal) (path : List String)
    (h : pathNav p path = true) :
    walk (mapAt f p path) path = f (walk p path) := by
  induction path generalizing p with
  | nil => rfl
  | cons s rest ih =>
    simp only [pathNav, Bool.and_eq_true] at h
    rw [mapAt_cons, walk_cons, getSlot_setSlotJ_self _ _ _ h.1, ih _ h.2, walk_cons]

theorem writeAt_nil (p : JVal) (k : String) (x : JVal) :
    writeAt p [] k x = setSlotJ p k x := rfl

theorem writeAt_cons (p : JVal) (s : String) (rest : List String) (k : String) (x : JVal) :
    writeAt p (s :: rest) k x = setSlotJ p s (writeAt (getSlot p s) rest k x) := rfl

theorem walk_writeAt (p : JVal) (path : List String) (k : String) (x : JVal)
    (h : pathNav p path = true) :
    walk (writeAt p path k x) path = setSlotJ (walk p path) k x :=
  walk_mapAt _ p path h

theorem writeAt_restore (p : JVal) (path : List String) (k : String) (x : JVal)
    (h : slotPathOk p path k = true) :
    writeAt (writeAt p path k x) path k (getSlot (walk p path) k) = p := by
  induction path generalizing p with
  | nil =>
    simp only [slotPathOk, pathNav, Bool.true_and] at h
    rw [walk_nil, writeAt_nil, writeAt_nil, setSlotJ_setSlotJ,
      setSlotJ_getSlot_self p k h]
  | cons s rest ih =>
    simp only [slotPathOk, pathNav, walk_cons, Bool.and_eq_true, Bool.and_assoc] at h
    obtain ⟨h1, h2, h3⟩ := h
    rw [writeAt_cons, writeAt_cons, getSlot_setSlotJ_self _ _ _ h1, walk_cons,
      ih (getSlot p s) (by simp [slotPathOk, h2, h3]),
      setSlotJ_setSlotJ, setSlotJ_getSlot_self p s h1]

theorem pathNav_of_walk_obj (p : JVal) (path : List String)
    (oid : Nat) (c : Caps) (sl : List (String × JVal)) (ops : List (String × List JVal))
    (h : walk p path = .obj oid c sl ops) : pathNav p path = true := by
  induction path generalizing p with
  | nil => rfl
  | cons s rest ih =>
    rw [walk_cons] at h
    have hs : hasSlot p s = true := by
      by_contra hc
      have hundefV : getSlot p s = .undefV := by
        cases p with
        | obj o cc slots ops' =>
          cases hf : assocFind slots s with
          | none => simp [getSlot, hf]
          | some v => exact absurd (by simp [hasSlot, assocHas, hf]) hc
        | arr xs =>
          cases hk : jsIndex? s with
          | none => simp [getSlot, hk]
          | some i =>
            cases hlt : decide (i < xs.length) with
            | true => exact absurd (by simp [hasSlot, hk, hlt]) hc
            | false =>
              have : xs[i]? = none :=
                List.getElem?_eq_none (Nat.le_of_not_lt (by simpa using hlt))
              simp [getSlot, hk, this]
        | undefV => rfl
        | num n => rfl
        | str t => rfl
        | tok t => rfl
      rw [hundefV, walk_undef] at h
      exact JVal.noConfusion h
    simp [pathNav, hs, ih _ h]

/-! ## Lemmas: the path resolver -/

theorem resolveLoc_nondash (root : JVal) (key : String) (h : containsDash key = false) :
    resolveLoc root key = ([], key, getSlot root key) := by
  simp [resolveLoc, h]

theorem resolveLoc_dash (root : JVal) (key : String) (h : containsDash key = true) :
    resolveLoc root key =
      (if ¬ jHasSet (walk root (splitDash key)) then (splitDash key).dropLast else [],
       ((splitDash key).getLast?).getD "", walk root (splitDash key)) := by
  simp [resolveLoc, h]

/-- The value-returning `resolve` agrees with the path-returning `resolveLoc`:
walking the returned path from the original root recovers `resolve`'s
effective root. -/
theorem resolve_eq_resolveLoc (root : JVal) (key : String) :
    resolve root key
      = (walk root (resolveLoc root key).1, (resolveLoc root key).2.1,
         (resolveLoc root key).2.2) := by
  by_cases h : containsDash key = true
  · by_cases h2 : jHasSet (walk root (splitDash key)) = true
    · simp [resolve, resolveLoc, h, h2, walk_nil]
    · simp [resolve, resolveLoc, h, h2]
  · simp [resolve, resolveLoc, h, walk_nil]

theorem resolveLoc_target (root : JVal) (key : String) :
    (resolveLoc root key).2.2 = walk root (targetPath key) := by
  by_cases h : containsDash key = true
  · simp [resolveLoc, targetPath, h]
  · simp [resolveLoc, targetPath, h, walk]

/-! ## C6 -/

/-- C6 (amended): for every nested (separator-joined) key whose resolved leaf
target lacks a settor, `resolve` returns as effective root the parent object
of the leaf (the walk of all segments but the last), so assignment on the
leaf key writes the correct slot; for a nested key whose target has a settor
the returned root is the original root object that was passed in, unchanged —
not the leaf's containing object.  The returned key is the last segment. -/
theorem c6_resolve_effective_root (root : JVal) (key : String)
    (h : containsDash key = true) :
    (jHasSet (resolve root key).2.2 = false →
      (resolve root key).1 = walk root (splitDash key).dropLast) ∧
    (jHasSet (resolve root key).2.2 = true → (resolve root key).1 = root) ∧
    (resolve root key).2.1 = ((splitDash key).getLast?).getD "" := by
  by_cases h2 : jHasSet (walk root (splitDash key)) = true
  · have hres : resolve root key
        = (root, ((splitDash key).getLast?).getD "", walk root (splitDash key)) := by
      simp [resolve, h, h2]
    rw [hres]
    refine ⟨fun hf => ?_, fun _ => rfl, rfl⟩
    rw [hf] at h2
    exact absurd h2 (by decide)
  · have hres : resolve root key
        = (walk root (splitDash key).dropLast, ((splitDash key).getLast?).getD "",
           walk root (splitDash key)) := by
      simp [resolve, h, h2]
    rw [hres]
    refine ⟨fun _ => rfl, fun ht => ?_, rfl⟩
    exact absurd ht h2

/-- Witness for the amended C6 at a concrete nested key. -/
theorem c6_witness :
    containsDash "a-b" = true ∧
    ((jHasSet (resolve c6p "a-b").2.2 = false →
        (resolve c6p "a-b").1 = walk c6p (splitDash "a-b").dropLast) ∧
      (jHasSet (resolve c6p "a-b").2.2 = true → (resolve c6p "a-b").1 = c6p) ∧
      (resolve c6p "a-b").2.1 = ((splitDash "a-b").getLast?).getD "") :=
  ⟨by decide, c6_resolve_effective_root c6p "a-b" (by decide)⟩

/-- C6 counterexample: at `root = { a: { b: vector } }` and key `a-b`, the
target has a settor, and the returned root is the original root (identity 0)
and not the leaf's containing object `root.a` (identity 1), refuting the
claim's settor case as stated. -/
theorem c6_counterexample :
    jHasSet (resolve c6p "a-b").2.2 = true ∧
    oidOf (resolve c6p "a-b").1 = some 0 ∧
    oidOf (getSlot c6p "a") = some 1 ∧
    (resolve c6p "a-b").1 ≠ getSlot c6p "a" := by
  refine ⟨by decide, by decide, by decide, fun hEq => ?_⟩
  have hoid := congrArg oidOf hEq
  rw [show oidOf (resolve c6p "a-b").1 = some 0 from by decide,
      show oidOf (getSlot c6p "a") = some 1 from by decide] at hoid
  exact absurd hoid (by decide)

/-! ## C9 -/

theorem applyProps_cons (object : JVal) (pv : String × JVal)
    (rest : List (String × JVal)) :
    applyProps object (pv :: rest)
      = applyProps
          (if RESERVED_PROPS.contains pv.1 then object else (applyProp object pv.1 pv.2).1)
          rest := rfl

theorem applyProps_all_reserved (object : JVal) (l : List (String × JVal))
    (h : ∀ pv ∈ l, RESERVED_PROPS.contains pv.1 = true) :
    applyProps object l = object := by
  induction l generalizing object with
  | nil => rfl
  | cons pv rest ih =>
    rw [applyProps_cons, if_pos (h pv (List.mem_cons_self _ _))]
    exact ih object fun q hq => h q (List.mem_cons_of_mem _ hq)

theorem applyProps_filter (object : JVal) (l : List (String × JVal)) :
    applyProps object l
      = applyProps object (l.filter fun pv => !(RESERVED_PROPS.contains pv.1)) := by
  induction l generalizing object with
  | nil => rfl
  | cons pv rest ih =>
    rw [applyProps_cons, List.filter_cons]
    by_cases hr : RESERVED_PROPS.contains pv.1 = true
    · simp only [hr]
      simp only [if_true, Bool.not_true, Bool.false_eq_true, if_false]
      exact ih object
    · have hr' : RESERVED_PROPS.contains pv.1 = false := by simpa using hr
      simp only [hr']
      simp only [Bool.not_false, if_true, Bool.false_eq_true, if_false]
      rw [applyProps_cons]
      simp only [hr']
      simp only [Bool.false_eq_true, if_false]
      exact ih _

/-- C9: the property applier never writes the four reserved keys: a batch
writes exactly what its non-reserved entries write (reserved entries are
skipped), and a batch declaring only reserved keys leaves the object exactly
unchanged, whatever values it declares for them. -/
theorem c9_reserved_props_skipped (object : JVal)
    (props reservedBatch : List (String × JVal))
    (h : ∀ pv ∈ reservedBatch, RESERVED_PROPS.contains pv.1 = true) :
    applyProps object props
      = applyProps object (props.filter fun pv => !(RESERVED_PROPS.contains pv.1)) ∧
    applyProps object reservedBatch = object :=
  ⟨applyProps_filter object props, applyProps_all_reserved object reservedBatch h⟩

/-- Witness for C9 at a concrete object and batches. -/
theorem c9_witness :
    (∀ pv ∈ c9resv, RESERVED_PROPS.contains pv.1 = true) ∧
    (applyProps c2obj c9props
        = applyProps c2obj (c9props.filter fun pv => !(RESERVED_PROPS.contains pv.1)) ∧
      applyProps c2obj c9resv = c2obj) :=
  ⟨by decide, c9_reserved_props_skipped c2obj c9props c9resv (by decide)⟩

/-! ## C2 -/

/-- C2: the write strategy the applier takes for a property equals the
specification's stated priority applied to the resolved target and declared
value; and in the exact-type copy case the object at the target path keeps
its identity (`oid`), its capabilities and own properties, receiving the
copied state. -/
theorem c2_strategy_priority (object : JVal) (prop : String) (value : JVal) :
    (applyProp object prop value).2 = strategySpec (resolveLoc object prop).2.2 value ∧
    (∀ oid c sl ops,
      (resolveLoc object prop).2.2 = JVal.obj oid c sl ops →
      (applyProp object prop value).2 = Action.copy →
      walk (applyProp object prop value).1 (targetPath prop)
        = JVal.obj oid c sl (ops ++ [("copy", [value])])) := by
  constructor
  · simp only [applyProp, strategySpec]
    split_ifs <;> rfl
  · intro oid c sl ops ht hcopy
    have hw : walk object (targetPath prop) = JVal.obj oid c sl ops := by
      rw [← resolveLoc_target]; exact ht
    have hnav : pathNav object (targetPath prop) = true :=
      pathNav_of_walk_obj _ _ _ _ _ _ hw
    simp only [applyProp] at hcopy ⊢
    split_ifs at hcopy ⊢
    have hfin : walk (mapAt (copyInto value) object (targetPath prop)) (targetPath prop)
        = copyInto value (walk object (targetPath prop)) := walk_mapAt _ _ _ hnav
    rw [hw] at hfin
    exact hfin

/-- Witness for C2 at a concrete copy-compatible property write. -/
theorem c2_witness :
    (resolveLoc c2obj "position").2.2 = JVal.obj 1 capsVec [] [] ∧
    (applyProp c2obj "position" c2val).2 = Action.copy ∧
    walk (applyProp c2obj "position" c2val).1 (targetPath "position")
      = JVal.obj 1 capsVec [] [("copy", [c2val])] :=
  ⟨rfl, rfl, (c2_strategy_priority c2obj "position" c2val).2 1 capsVec [] [] rfl rfl⟩

/-! ## C3 -/

theorem splitDashChars_ne_nil (l : List Char) : splitDashChars l ≠ [] := by
  induction l with
  | nil => simp [splitDashChars]
  | cons c rest ih =>
    simp only [splitDashChars]
    by_cases hc : c = '-'
    · simp [hc]
    · simp only [hc, if_false]
      cases hr : splitDashChars rest with
      | nil => exact absurd hr ih
      | cons a b => simp [hr]

theorem splitDash_ne_nil (s : String) : splitDash s ≠ [] := by
  simp only [splitDash, ne_eq, List.map_eq_nil_iff]
  exact splitDashChars_ne_nil s.data

theorem chain_decomp (s : String) :
    splitDash s = (splitDash s).dropLast ++ [((splitDash s).getLast?).getD ""] := by
  have hne := splitDash_ne_nil s
  rw [List.getLast?_eq_getLast _ hne]
  simp [List.dropLast_append_getLast hne]

theorem walk_singleton (q : JVal) (x : String) : walk q [x] = getSlot q x := rfl

/-- The resolved location of a string path is stable under writing into that
location, provided the path's slots exist and (for pierced paths) neither the
old occupant nor the written value exposes a settor. -/
theorem resolveLoc_writeAt_stable (p x : JVal) (s : String)
    (hslot : slotPathOk p (resolveLoc p s).1 (resolveLoc p s).2.1 = true)
    (hset : containsDash s = true →
      jHasSet (resolveLoc p s).2.2 = false ∧ jHasSet x = false) :
    (resolveLoc (writeAt p (resolveLoc p s).1 (resolveLoc p s).2.1 x) s).1
        = (resolveLoc p s).1 ∧
    (resolveLoc (writeAt p (resolveLoc p s).1 (resolveLoc p s).2.1 x) s).2.1
        = (resolveLoc p s).2.1 := by
  by_cases hd : containsDash s = true
  · obtain ⟨hts, hxs⟩ := hset hd
    have hq := resolveLoc_dash p s hd
    have htsw : jHasSet (walk p (splitDash s)) = false := by
      rw [hq] at hts
      simpa using hts
    have hps : resolveLoc p s
        = ((splitDash s).dropLast, ((splitDash s).getLast?).getD "",
           walk p (splitDash s)) := by
      rw [hq, htsw]
      simp
    have hnav : pathNav p (splitDash s).dropLast = true := by
      have h := hslot
      rw [hps] at h
      simp only [slotPathOk, Bool.and_eq_true] at h
      exact h.1
    have hkey : hasSlot (walk p (splitDash s).dropLast)
        (((splitDash s).getLast?).getD "") = true := by
      have h := hslot
      rw [hps] at h
      simp only [slotPathOk, Bool.and_eq_true] at h
      exact h.2
    have hw1 : walk (writeAt p (splitDash s).dropLast (((splitDash s).getLast?).getD "") x)
        (splitDash s) = x := by
      have hc : walk (writeAt p (splitDash s).dropLast (((splitDash s).getLast?).getD "") x)
          (splitDash s)
          = walk (writeAt p (splitDash s).dropLast (((splitDash s).getLast?).getD "") x)
            ((splitDash s).dropLast ++ [((splitDash s).getLast?).getD ""]) := by
        rw [← chain_decomp s]
      rw [hc, walk_append, walk_writeAt _ _ _ _ hnav, walk_singleton]
      exact getSlot_setSlotJ_self _ _ _ hkey
    have hq1 := resolveLoc_dash
      (writeAt p (splitDash s).dropLast (((splitDash s).getLast?).getD "") x) s hd
    rw [hps]
    rw [show ((splitDash s).dropLast, ((splitDash s).getLast?).getD "",
          walk p (splitDash s)).1 = (splitDash s).dropLast from rfl]
    rw [show ((splitDash s).dropLast, ((splitDash s).getLast?).getD "",
          walk p (splitDash s)).2.1 = ((splitDash s).getLast?).getD "" from rfl]
    rw [hq1, hw1, hxs]
    simp
  · have h0 : containsDash s = false := by simpa using hd
    rw [resolveLoc_nondash _ _ h0]
    rw [resolveLoc_nondash _ _ h0]
    exact ⟨rfl, rfl⟩

/-- C3 (amended): for a string attach descriptor whose resolved slot exists
on the parent object, where the child's object is a plain object value
without a pre-existing bookkeeping field, where for pierced paths neither the
slot's previous occupant nor the child's object exposes a settor, and where a
trailing array-slot index refers into an already-array container, attaching
and then detaching restores the parent's object exactly and returns the
child's object to its original state (the bookkeeping field is removed).
For every descriptor — string or function — detach leaves no
`__previousAttach` bookkeeping field on the child's object. -/
theorem c3_attach_detach (env : AttachEnv) (p c : JVal) (s : String)
    (hobj : jIsObj c = true)
    (hbk : hasSlot c "__previousAttach" = false)
    (hidx : indexRegexTest s = true →
      jIsArray (getSlot (walk p (resolveLoc p (stripIndex s)).1)
        (resolveLoc p (stripIndex s)).2.1) = true)
    (hslot : slotPathOk p (resolveLoc p s).1 (resolveLoc p s).2.1 = true)
    (hset : containsDash s = true →
      jHasSet (resolveLoc p s).2.2 = false ∧ jHasSet c = false) :
    detach env (attach env p c (AttachDescr.path s)).1
        (attach env p c (AttachDescr.path s)).2 (AttachDescr.path s) = (p, c) ∧
    (∀ (d : AttachDescr) (p' c' : JVal),
      hasSlot (detach env p' c' d).2 "__previousAttach" = false) := by
  constructor
  · have hatt : attach env p c (AttachDescr.path s)
        = (writeAt p (resolveLoc p s).1 (resolveLoc p s).2.1
            (setSlotJ c "__previousAttach"
              (getSlot (walk p (resolveLoc p s).1) (resolveLoc p s).2.1)),
           setSlotJ c "__previousAttach"
             (getSlot (walk p (resolveLoc p s).1) (resolveLoc p s).2.1)) := by
      by_cases hir : indexRegexTest s = true
      · simp [attach, hir, hidx hir]
      · simp [attach, hir]
    rw [hatt]
    obtain ⟨hst1, hst2⟩ := resolveLoc_writeAt_stable p
      (setSlotJ c "__previousAttach"
        (getSlot (walk p (resolveLoc p s).1) (resolveLoc p s).2.1)) s hslot
      (fun hd => ⟨(hset hd).1, by rw [jHasSet_setSlotJ]; exact (hset hd).2⟩)
    simp only [detach]
    rw [hst1, hst2, getSlot_setSlotJ_obj c _ _ hobj,
      writeAt_restore p _ _ _ hslot, delSlot_setSlotJ c _ _ hobj hbk]
  · intro d p' c'
    cases d with
    | path t => simp [detach, hasSlot_delSlot_previousAttach]
    | fn i => simp [detach, hasSlot_delSlot_previousAttach]

/-- Witness for the amended C3 at a concrete pierced path with a settor-free
child. -/
theorem c3_witness :
    jIsObj cexChildPlain = true ∧
    hasSlot cexChildPlain "__previousAttach" = false ∧
    (indexRegexTest "foo-bar" = true →
      jIsArray (getSlot (walk cexParent (resolveLoc cexParent (stripIndex "foo-bar")).1)
        (resolveLoc cexParent (stripIndex "foo-bar")).2.1) = true) ∧
    slotPathOk cexParent (resolveLoc cexParent "foo-bar").1
      (resolveLoc cexParent "foo-bar").2.1 = true ∧
    (containsDash "foo-bar" = true →
      jHasSet (resolveLoc cexParent "foo-bar").2.2 = false ∧
        jHasSet cexChildPlain = false) ∧
    (detach envTrivial
        (attach envTrivial cexParent cexChildPlain (AttachDescr.path "foo-bar")).1
        (attach envTrivial cexParent cexChildPlain (AttachDescr.path "foo-bar")).2
        (AttachDescr.path "foo-bar") = (cexParent, cexChildPlain) ∧
      ∀ (d : AttachDescr) (p' c' : JVal),
        hasSlot (detach envTrivial p' c' d).2 "__previousAttach" = false) :=
  ⟨by decide, by decide, by decide, by decide, by decide,
   c3_attach_detach envTrivial cexParent cexChildPlain "foo-bar"
     (by decide) (by decide) (by decide) (by decide) (by decide)⟩

/-- C3 counterexample: at parent `{ foo: { bar: 5 } }` and a child object
with a settor, attaching at `foo-bar` and then detaching does not restore the
slot: it still holds the child object (identity 2), not the number 5 it held
before the attach (detach resolves a different effective root because the
now-resident child has a settor). -/
theorem c3_counterexample :
    getSlot (getSlot cexParent "foo") "bar" = JVal.num 5 ∧
    oidOf (getSlot (getSlot c3detached.1 "foo") "bar") = some 2 ∧
    getSlot (getSlot c3detached.1 "foo") "bar" ≠ JVal.num 5 := by
  refine ⟨rfl, by decide, fun hEq => ?_⟩
  have h5 := congrArg oidOf hEq
  rw [show oidOf (getSlot (getSlot c3detached.1 "foo") "bar") = some 2 from by decide] at h5
  exact absurd h5 (by decide)

/-! ## Lemmas: the host heap -/

theorem getNodeD_updNode (s : HostState) (n : Nat) (f : Instance → Instance) (m : Nat) :
    getNodeD (updNode s n f) m = if m = n then f (getNodeD s n) else getNodeD s m := by
  by_cases h : m = n
  · subst h
    simp [getNodeD, updNode, assocFind_assocSet_self]
  · simp [getNodeD, updNode, assocFind_assocSet_ne _ _ _ _ h, h]

theorem getObjD_updObj (s : HostState) (o : Nat) (f : ObjData → ObjData) (m : Nat) :
    getObjD (updObj s o f) m = if m = o then f (getObjD s o) else getObjD s m := by
  by_cases h : m = o
  · subst h
    simp [getObjD, updObj, assocFind_assocSet_self]
  · simp [getObjD, updObj, assocFind_assocSet_ne _ _ _ _ h, h]

theorem getNodeD_fields_upd (s : HostState) (n : Nat) (f : Instance → Instance) (m : Nat)
    (hobj : ∀ x, (f x).object = x.object)
    (hpr : ∀ x, (f x).props = x.props)
    (hty : ∀ x, (f x).type = x.type) :
    (getNodeD (updNode s n f) m).object = (getNodeD s m).object ∧
    (getNodeD (updNode s n f) m).props = (getNodeD s m).props ∧
    (getNodeD (updNode s n f) m).type = (getNodeD s m).type := by
  rw [getNodeD_updNode]
  by_cases h : m = n
  · subst h
    rw [if_pos rfl]
    exact ⟨hobj _, hpr _, hty _⟩
  · rw [if_neg h]
    exact ⟨rfl, rfl, rfl⟩

theorem getObjD_fields_upd (s : HostState) (o : Nat) (f : ObjData → ObjData) (m : Nat)
    (hcls : ∀ x, (f x).cls = x.cls)
    (hdc : ∀ x, (f x).disposeCount = x.disposeCount) :
    (getObjD (updObj s o f) m).cls = (getObjD s m).cls ∧
    (getObjD (updObj s o f) m).disposeCount = (getObjD s m).disposeCount := by
  rw [getObjD_updObj]
  by_cases h : m = o
  · subst h
    rw [if_pos rfl]
    exact ⟨hcls _, hdc _⟩
  · rw [if_neg h]
    exact ⟨rfl, rfl⟩

theorem getNodeD_eq_of_nodes {s s' : HostState} (h : s'.nodes = s.nodes) (m : Nat) :
    getNodeD s' m = getNodeD s m := by
  simp [getNodeD, h]

theorem getObjD_eq_of_objs {s s' : HostState} (h : s'.objs = s.objs) (m : Nat) :
    getObjD s' m = getObjD s m := by
  simp [getObjD, h]

theorem unlinkStep_fields (s : HostState) (pid cid m : Nat) :
    (unlinkStep s pid cid).trace = s.trace ++ [Ev.unlinked cid] ∧
    (unlinkStep s pid cid).objs = s.objs ∧
    (getNodeD (unlinkStep s pid cid) m).object = (getNodeD s m).object ∧
    (getNodeD (unlinkStep s pid cid) m).props = (getNodeD s m).props ∧
    (getNodeD (unlinkStep s pid cid) m).type = (getNodeD s m).type := by
  simp only [unlinkStep]
  cases hidx : idxOf
      (getNodeD (updNode s cid fun n => { n with parent := none }) pid).children cid with
  | none =>
    have h1 := getNodeD_fields_upd s cid (fun n => { n with parent := none }) m
      (fun _ => rfl) (fun _ => rfl) (fun _ => rfl)
    exact ⟨rfl, rfl, h1.1, h1.2.1, h1.2.2⟩
  | some i =>
    have h1 := getNodeD_fields_upd s cid (fun n => { n with parent := none }) m
      (fun _ => rfl) (fun _ => rfl) (fun _ => rfl)
    have h2 := getNodeD_fields_upd (updNode s cid fun n => { n with parent := none }) pid
      (fun n => { n with children := n.children.eraseIdx i }) m
      (fun _ => rfl) (fun _ => rfl) (fun _ => rfl)
    exact ⟨rfl, rfl, h2.1.trans h1.1, h2.2.1.trans h1.2.1, h2.2.2.trans h1.2.2⟩

theorem unlinkStep_parent (s : HostState) (pid cid : Nat) :
    (getNodeD (unlinkStep s pid cid) cid).parent = none := by
  simp only [unlinkStep]
  cases hidx : idxOf
      (getNodeD (updNode s cid fun n => { n with parent := none }) pid).children cid with
  | none =>
    show (getNodeD (updNode s cid fun n => { n with parent := none }) cid).parent = none
    rw [getNodeD_updNode, if_pos rfl]
  | some i =>
    show (getNodeD (updNode (updNode s cid fun n => { n with parent := none }) pid
      fun n => { n with children := n.children.eraseIdx i }) cid).parent = none
    rw [getNodeD_updNode]
    by_cases h : cid = pid
    · rw [if_pos h]
      show (getNodeD (updNode s cid fun n => { n with parent := none }) pid).parent = none
      rw [← h, getNodeD_updNode, if_pos rfl]
    · rw [if_neg h, getNodeD_updNode, if_pos rfl]

theorem unlinkStep_children_absent (s : HostState) (pid cid : Nat)
    (habsent : idxOf (getNodeD s pid).children cid = none) :
    (getNodeD (unlinkStep s pid cid) pid).children = (getNodeD s pid).children := by
  have hch : (getNodeD (updNode s cid fun n => { n with parent := none }) pid).children
      = (getNodeD s pid).children := by
    rw [getNodeD_updNode]
    by_cases h : pid = cid
    · rw [if_pos h, h]
    · rw [if_neg h]
  simp only [unlinkStep]
  cases hidx : idxOf
      (getNodeD (updNode s cid fun n => { n with parent := none }) pid).children cid with
  | none => exact hch
  | some i =>
    rw [hch, habsent] at hidx
    exact Option.noConfusion hidx

theorem Object3D_remove_spec (s : HostState) (po co m : Nat) :
    (∃ mid, (Object3D_remove s po co).trace = s.trace ++ mid ∧
      (∀ e ∈ mid, isCommitEv e = false ∧ ∀ o, e ≠ Ev.disposed o)) ∧
    (Object3D_remove s po co).nodes = s.nodes ∧
    (getObjD (Object3D_remove s po co) m).cls = (getObjD s m).cls ∧
    (getObjD (Object3D_remove s po co) m).disposeCount = (getObjD s m).disposeCount := by
  simp only [Object3D_remove]
  cases hidx : idxOf (getObjD s po).childrenO co with
  | none => exact ⟨⟨[], by simp, by simp⟩, rfl, rfl, rfl⟩
  | some i =>
    have h1 := getObjD_fields_upd s co (fun d => { d with parentO := none }) m
      (fun _ => rfl) (fun _ => rfl)
    have h2 := getObjD_fields_upd (updObj s co fun d => { d with parentO := none }) po
      (fun d => { d with childrenO := d.childrenO.eraseIdx i }) m
      (fun _ => rfl) (fun _ => rfl)
    refine ⟨⟨[Ev.graphRemoved co], rfl, ?_⟩, rfl, h2.1.trans h1.1, h2.2.trans h1.2⟩
    intro e he
    simp only [List.mem_singleton] at he
    subst he
    exact ⟨rfl, fun o => by simp⟩

theorem Object3D_add_spec (s : HostState) (po co m : Nat) :
    (∃ mid, (Object3D_add s po co).trace = s.trace ++ mid ∧
      (∀ e ∈ mid, isCommitEv e = false ∧ ∀ o, e ≠ Ev.disposed o)) ∧
    (Object3D_add s po co).nodes = s.nodes ∧
    (getObjD (Object3D_add s po co) m).cls = (getObjD s m).cls ∧
    (getObjD (Object3D_add s po co) m).disposeCount = (getObjD s m).disposeCount := by
  simp only [Object3D_add]
  by_cases hpc : po = co
  · rw [if_pos hpc]
    exact ⟨⟨[], by simp, by simp⟩, rfl, rfl, rfl⟩
  · rw [if_neg hpc]
    cases hpar : (getObjD s co).parentO with
    | none =>
      have h1 := getObjD_fields_upd s co (fun d => { d with parentO := some po }) m
        (fun _ => rfl) (fun _ => rfl)
      have h2 := getObjD_fields_upd (updObj s co fun d => { d with parentO := some po }) po
        (fun d => { d with childrenO := d.childrenO ++ [co] }) m
        (fun _ => rfl) (fun _ => rfl)
      refine ⟨⟨[Ev.graphAdded co], rfl, ?_⟩, rfl, h2.1.trans h1.1, h2.2.trans h1.2⟩
      intro e he
      simp only [List.mem_singleton] at he
      subst he
      exact ⟨rfl, fun o => by simp⟩
    | some old =>
      obtain ⟨⟨midR, htr, hmid⟩, hnodes, hcls, hdc⟩ := Object3D_remove_spec s old co m
      have h1 := getObjD_fields_upd (Object3D_remove s old co) co
        (fun d => { d with parentO := some po }) m (fun _ => rfl) (fun _ => rfl)
      have h2 := getObjD_fields_upd
        (updObj (Object3D_remove s old co) co fun d => { d with parentO := some po }) po
        (fun d => { d with childrenO := d.childrenO ++ [co] }) m
        (fun _ => rfl) (fun _ => rfl)
      refine ⟨⟨midR ++ [Ev.graphAdded co], ?_, ?_⟩, by simpa using hnodes,
        (h2.1.trans h1.1).trans hcls, (h2.2.trans h1.2).trans hdc⟩
      · show (Object3D_remove s old co).trace ++ [Ev.graphAdded co] = _
        rw [htr, List.append_assoc]
      · intro e he
        rw [List.mem_append] at he
        cases he with
        | inl h => exact hmid e h
        | inr h =>
          simp only [List.mem_singleton] at h
          subst h
          exact ⟨rfl, fun o => by simp⟩

theorem graphUnlink_spec (s2 : HostState) (pid cid oid : Nat)
    (hobj : (getNodeD s2 cid).object = some oid) :
    ∃ s3 mid, graphUnlink s2 pid cid = Except.ok s3 ∧
      (∀ m, getNodeD s3 m = getNodeD s2 m) ∧
      (∀ m, (getObjD s3 m).cls = (getObjD s2 m).cls ∧
            (getObjD s3 m).disposeCount = (getObjD s2 m).disposeCount) ∧
      s3.trace = s2.trace ++ mid ∧
      (∀ e ∈ mid, isCommitEv e = false ∧ ∀ o, e ≠ Ev.disposed o) ∧
      (attachTruthy (getNodeD s2 cid).props.attachP = true → mid = [Ev.detached cid]) := by
  simp only [graphUnlink]
  by_cases ha : attachTruthy (getNodeD s2 cid).props.attachP = true
  · rw [if_pos ha, hobj]
    refine ⟨pushTrace s2 (Ev.detached cid), [Ev.detached cid], rfl, fun m => rfl,
      fun m => ⟨rfl, rfl⟩, rfl, ?_, fun _ => rfl⟩
    intro e he
    simp only [List.mem_singleton] at he
    subst he
    exact ⟨rfl, fun o => by simp⟩
  · rw [if_neg ha]
    by_cases h3 : (nodeObjIs3D s2 pid && nodeObjIs3D s2 cid) = true
    · rw [if_pos h3]
      cases hpo : (getNodeD s2 pid).object with
      | none =>
        exfalso
        have hf : nodeObjIs3D s2 pid = false := by simp [nodeObjIs3D, hpo]
        rw [hf] at h3
        simp at h3
      | some po =>
        rw [hobj]
        obtain ⟨⟨midR, htr, hmid⟩, hnodes, -, -⟩ := Object3D_remove_spec s2 po oid 0
        refine ⟨Object3D_remove s2 po oid, midR, rfl,
          fun m => getNodeD_eq_of_nodes hnodes m,
          fun m => ⟨(Object3D_remove_spec s2 po oid m).2.2.1,
            (Object3D_remove_spec s2 po oid m).2.2.2⟩,
          htr, hmid, fun hc => absurd hc ha⟩
    · rw [if_neg h3]
      exact ⟨s2, [], rfl, fun m => rfl, fun m => ⟨rfl, rfl⟩, by simp, by simp,
        fun hc => absurd hc ha⟩

theorem getObjD_cls_upd (s : HostState) (o : Nat) (f : ObjData → ObjData) (m : Nat)
    (hcls : ∀ x, (f x).cls = x.cls) :
    (getObjD (updObj s o f) m).cls = (getObjD s m).cls := by
  rw [getObjD_updObj]
  by_cases h : m = o
  · subst h
    rw [if_pos rfl, hcls]
  · rw [if_neg h]

theorem disposeStep_spec (s3 : HostState) (child : Instance) (oid : Nat)
    (hobj : child.object = some oid) :
    ∃ s4, disposeStep s3 child = Except.ok s4 ∧
      (∀ m, getNodeD s4 m = getNodeD s3 m) ∧
      (∀ m, (getObjD s4 m).cls = (getObjD s3 m).cls) ∧
      s4.trace = s3.trace ++
        (if child.props.disposeNull = false ∧ child.type ≠ "primitive"
            ∧ (getObjD s3 oid).cls.hasDispose = true
         then [Ev.disposed oid] else []) ∧
      (getObjD s4 oid).disposeCount = (getObjD s3 oid).disposeCount +
        (if child.props.disposeNull = false ∧ child.type ≠ "primitive"
            ∧ (getObjD s3 oid).cls.hasDispose = true then 1 else 0) := by
  simp only [disposeStep]
  by_cases hsup : child.props.disposeNull = false ∧ child.type ≠ "primitive"
  · rw [if_pos hsup, hobj]
    by_cases hhd : (getObjD s3 oid).cls.hasDispose = true
    · refine ⟨pushTrace (updObj s3 oid fun d => { d with disposeCount := d.disposeCount + 1 })
          (Ev.disposed oid), ?_, fun m => rfl, ?_, ?_, ?_⟩
      · simp [hhd]
      · intro m
        exact getObjD_cls_upd s3 oid
          (fun d => { d with disposeCount := d.disposeCount + 1 }) m (fun _ => rfl)
      · rw [if_pos ⟨hsup.1, hsup.2, hhd⟩]
        rfl
      · rw [if_pos ⟨hsup.1, hsup.2, hhd⟩]
        show (getObjD (updObj s3 oid
          fun d => { d with disposeCount := d.disposeCount + 1 }) oid).disposeCount = _
        rw [getObjD_updObj, if_pos rfl]
    · refine ⟨s3, ?_, fun m => rfl, fun m => rfl, ?_, ?_⟩
      · simp [hhd]
      · rw [if_neg fun hC => hhd hC.2.2]
        simp
      · rw [if_neg fun hC => hhd hC.2.2]
        simp
  · rw [if_neg hsup]
    refine ⟨s3, rfl, fun m => rfl, fun m => rfl, ?_, ?_⟩
    · rw [if_neg fun hC => hsup ⟨hC.1, hC.2.1⟩]
      simp
    · rw [if_neg fun hC => hsup ⟨hC.1, hC.2.1⟩]
      simp

/-- Full characterisation of a successful `removeNode` on a committed child:
it always succeeds, preserves every node's object, clears the child's parent
link, leaves the parent's children untouched when the child is absent from
them, and its trace appends the unlink event, then the detach/graph-removal
events, then the dispose event exactly when disposal is neither suppressed
nor primitive and the object has a dispose method — which is also exactly
when the dispose count increments by one. -/
theorem removeNode_ok_spec (s : HostState) (pid cid oid : Nat)
    (hobj : (getNodeD s cid).object = some oid) :
    ∃ s' mid,
      removeNode s pid cid = Except.ok s' ∧
      (∀ m, (getNodeD s' m).object = (getNodeD s m).object) ∧
      (getNodeD s' cid).parent = none ∧
      (idxOf (getNodeD s pid).children cid = none →
        (getNodeD s' pid).children = (getNodeD s pid).children) ∧
      (∀ m, (getObjD s' m).cls = (getObjD s m).cls) ∧
      s'.trace = s.trace ++ (Ev.unlinked cid :: mid) ++
        (if (getNodeD s cid).props.disposeNull = false ∧ (getNodeD s cid).type ≠ "primitive"
            ∧ (getObjD s oid).cls.hasDispose = true
         then [Ev.disposed oid] else []) ∧
      (∀ e ∈ mid, isCommitEv e = false ∧ ∀ o, e ≠ Ev.disposed o) ∧
      (attachTruthy (getNodeD s cid).props.attachP = true → mid = [Ev.detached cid]) ∧
      (getObjD s' oid).disposeCount = (getObjD s oid).disposeCount +
        (if (getNodeD s cid).props.disposeNull = false ∧ (getNodeD s cid).type ≠ "primitive"
            ∧ (getObjD s oid).cls.hasDispose = true then 1 else 0) := by
  have hu := fun m => unlinkStep_fields s pid cid m
  have hobj2 : (getNodeD (unlinkStep s pid cid) cid).object = some oid :=
    ((hu cid).2.2.1).trans hobj
  obtain ⟨s3, mid, hgu, hn3, hoc3, htr3, hmid, hatt⟩ :=
    graphUnlink_spec (unlinkStep s pid cid) pid cid oid hobj2
  obtain ⟨s4, hds, hn4, hc4, htr4, hdc4⟩ :=
    disposeStep_spec s3 (getNodeD (unlinkStep s pid cid) cid) oid hobj2
  have hprops : (getNodeD (unlinkStep s pid cid) cid).props = (getNodeD s cid).props :=
    (hu cid).2.2.2.1
  have htype : (getNodeD (unlinkStep s pid cid) cid).type = (getNodeD s cid).type :=
    (hu cid).2.2.2.2
  have hclsu : ∀ m, getObjD (unlinkStep s pid cid) m = getObjD s m :=
    getObjD_eq_of_objs (hu 0).2.1
  have hcls3 : (getObjD s3 oid).cls = (getObjD s oid).cls := by
    rw [(hoc3 oid).1, hclsu oid]
  refine ⟨s4, mid, ?_, ?_, ?_, ?_, ?_, ?_, hmid, ?_, ?_⟩
  · simp only [removeNode]
    rw [hgu]
    exact hds
  · intro m
    rw [hn4 m, hn3 m]
    exact (hu m).2.2.1
  · rw [hn4 cid, hn3 cid]
    exact unlinkStep_parent s pid cid
  · intro hab
    rw [hn4 pid, hn3 pid]
    exact unlinkStep_children_absent s pid cid hab
  · intro m
    rw [hc4 m, (hoc3 m).1, hclsu m]
  · rw [htr4, htr3, (hu 0).1, hprops, htype, hcls3]
    simp [List.append_assoc]
  · intro hA
    rw [hprops] at hatt
    exact hatt hA
  · rw [hdc4, (hoc3 oid).2, hclsu oid, hprops, htype, hcls3]

/-! ## C7 -/

/-- C7: for a committed child, `removeNode` never invokes the object's
dispose routine when disposal is suppressed by the null `dispose` prop or
when the node is a primitive; otherwise, when the object has a dispose
routine, it is invoked exactly once, strictly after the unlink and
detach/graph-removal steps (the dispose event is the final event of the
removal), and the dispose count increments by exactly one. -/
theorem c7_dispose_policy (s : HostState) (pid cid oid : Nat)
    (hobj : (getNodeD s cid).object = some oid) :
    (((getNodeD s cid).props.disposeNull = true ∨ (getNodeD s cid).type = "primitive") →
      ∃ s' Δ, removeNode s pid cid = Except.ok s' ∧
        s'.trace = s.trace ++ Δ ∧ (∀ e ∈ Δ, e ≠ Ev.disposed oid) ∧
        (getObjD s' oid).disposeCount = (getObjD s oid).disposeCount) ∧
    (((getNodeD s cid).props.disposeNull = false ∧ (getNodeD s cid).type ≠ "primitive" ∧
        (getObjD s oid).cls.hasDispose = true) →
      ∃ s' mid, removeNode s pid cid = Except.ok s' ∧
        s'.trace = s.trace ++ (Ev.unlinked cid :: mid) ++ [Ev.disposed oid] ∧
        (∀ e ∈ mid, e ≠ Ev.disposed oid) ∧
        (getObjD s' oid).disposeCount = (getObjD s oid).disposeCount + 1) := by
  obtain ⟨s', mid, hok, hobjp, hpar, hch, hcls, htr, hmid, hatt, hdc⟩ :=
    removeNode_ok_spec s pid cid oid hobj
  constructor
  · intro hsup
    have hcond : ¬ ((getNodeD s cid).props.disposeNull = false ∧
        (getNodeD s cid).type ≠ "primitive" ∧ (getObjD s oid).cls.hasDispose = true) := by
      intro hC
      cases hsup with
      | inl h =>
        rw [h] at hC
        exact Bool.noConfusion hC.1
      | inr h => exact hC.2.1 h
    refine ⟨s', Ev.unlinked cid :: mid, hok, ?_, ?_, ?_⟩
    · rw [htr, if_neg hcond]
      simp
    · intro e he
      rw [List.mem_cons] at he
      cases he with
      | inl h =>
        subst h
        simp
      | inr h => exact (hmid e h).2 oid
    · rw [hdc, if_neg hcond]
      simp
  · intro hC
    refine ⟨s', mid, hok, ?_, fun e he => (hmid e he).2 oid, ?_⟩
    · rw [htr, if_pos hC]
    · rw [hdc, if_pos hC]

/-- Witness for C7 at a concrete removal that disposes. -/
theorem c7_witness :
    (getNodeD c5s 4).object = some 1 ∧
    ((getNodeD c5s 4).props.disposeNull = false ∧ (getNodeD c5s 4).type ≠ "primitive" ∧
      (getObjD c5s 1).cls.hasDispose = true) ∧
    (∃ s' mid, removeNode c5s 0 4 = Except.ok s' ∧
      s'.trace = c5s.trace ++ (Ev.unlinked 4 :: mid) ++ [Ev.disposed 1] ∧
      (∀ e ∈ mid, e ≠ Ev.disposed 1) ∧
      (getObjD s' 1).disposeCount = (getObjD c5s 1).disposeCount + 1) :=
  ⟨by decide, by decide, (c7_dispose_policy c5s 0 4 1 (by decide)).2 (by decide)⟩

/-! ## C10 -/

/-- C10: `removeNode` is total when the child is absent from the parent's
children sequence: the missing-index splice is guarded, leaving the parent's
children unchanged, while the child's parent back-reference is still
cleared and the detach (or graph-removal) and disposal steps still run as
usual. -/
theorem c10_remove_absent_child (s : HostState) (pid cid oid : Nat)
    (hobj : (getNodeD s cid).object = some oid)
    (habsent : idxOf (getNodeD s pid).children cid = none) :
    ∃ s' mid, removeNode s pid cid = Except.ok s' ∧
      (getNodeD s' pid).children = (getNodeD s pid).children ∧
      (getNodeD s' cid).parent = none ∧
      s'.trace = s.trace ++ (Ev.unlinked cid :: mid) ++
        (if (getNodeD s cid).props.disposeNull = false ∧ (getNodeD s cid).type ≠ "primitive"
            ∧ (getObjD s oid).cls.hasDispose = true
         then [Ev.disposed oid] else []) ∧
      (attachTruthy (getNodeD s cid).props.attachP = true → mid = [Ev.detached cid]) ∧
      (getObjD s' oid).disposeCount = (getObjD s oid).disposeCount +
        (if (getNodeD s cid).props.disposeNull = false ∧ (getNodeD s cid).type ≠ "primitive"
            ∧ (getObjD s oid).cls.hasDispose = true then 1 else 0) := by
  obtain ⟨s', mid, hok, hobjp, hpar, hch, hcls, htr, hmid, hatt, hdc⟩ :=
    removeNode_ok_spec s pid cid oid hobj
  exact ⟨s', mid, hok, hch habsent, hpar, htr, hatt, hdc⟩

/-- Witness for C10 at a concrete state where the child is not among the
parent's children. -/
theorem c10_witness :
    (getNodeD c10s 4).object = some 1 ∧
    idxOf (getNodeD c10s 0).children 4 = none ∧
    (∃ s' mid, removeNode c10s 0 4 = Except.ok s' ∧
      (getNodeD s' 0).children = (getNodeD c10s 0).children ∧
      (getNodeD s' 4).parent = none ∧
      s'.trace = c10s.trace ++ (Ev.unlinked 4 :: mid) ++
        (if (getNodeD c10s 4).props.disposeNull = false ∧ (getNodeD c10s 4).type ≠ "primitive"
            ∧ (getObjD c10s 1).cls.hasDispose = true
         then [Ev.disposed 1] else []) ∧
      (attachTruthy (getNodeD c10s 4).props.attachP = true → mid = [Ev.detached 4]) ∧
      (getObjD s' 1).disposeCount = (getObjD c10s 1).disposeCount +
        (if (getNodeD c10s 4).props.disposeNull = false ∧ (getNodeD c10s 4).type ≠ "primitive"
            ∧ (getObjD c10s 1).cls.hasDispose = true then 1 else 0)) :=
  ⟨by decide, by decide, c10_remove_absent_child c10s 0 4 1 (by decide) (by decide)⟩

/-! ## Lemmas: the commit and link phases of insertNode -/

theorem getNodeD_object_upd (s : HostState) (n : Nat) (f : Instance → Instance) (m : Nat)
    (hf : ∀ x, (f x).object = x.object) :
    (getNodeD (updNode s n f) m).object = (getNodeD s m).object := by
  rw [getNodeD_updNode]
  by_cases h : m = n
  · subst h
    rw [if_pos rfl, hf]
  · rw [if_neg h]

theorem autoAttach_fields (s1 : HostState) (cid oid m : Nat) :
    (autoAttach s1 cid oid).trace = s1.trace ∧
    (getNodeD (autoAttach s1 cid oid) m).object = (getNodeD s1 m).object := by
  simp only [autoAttach]
  by_cases h1 : ((getNodeD s1 cid).props.attachP).isNone = true
  · rw [if_pos h1]
    by_cases h2 : (getObjD s1 oid).cls.isBufferGeometry = true
    · rw [if_pos h2]
      exact ⟨rfl, getNodeD_object_upd _ _ _ _ fun _ => rfl⟩
    · rw [if_neg h2]
      by_cases h3 : (getObjD s1 oid).cls.isMaterial = true
      · rw [if_pos h3]
        exact ⟨rfl, getNodeD_object_upd _ _ _ _ fun _ => rfl⟩
      · rw [if_neg h3]
        exact ⟨rfl, rfl⟩
  · rw [if_neg h1]
    exact ⟨rfl, rfl⟩

theorem commitNode_committed (s : HostState) (cid oid : Nat)
    (h : (getNodeD s cid).object = some oid) :
    commitNode s cid = Except.ok s := by
  simp only [commitNode]
  rw [h]

theorem commitNode_prim_err (s : HostState) (cid : Nat)
    (hobj : (getNodeD s cid).object = none)
    (hp : (getNodeD s cid).type = "primitive")
    (hop : (getNodeD s cid).props.objectP = none) :
    commitNode s cid = Except.error primErrMsg := by
  simp only [commitNode]
  rw [hobj, if_pos hp, hop]

theorem commitNode_prim_ok (s : HostState) (cid oid : Nat)
    (hobj : (getNodeD s cid).object = none)
    (hp : (getNodeD s cid).type = "primitive")
    (hop : (getNodeD s cid).props.objectP = some oid) :
    commitNode s cid
      = Except.ok (pushTrace
          (autoAttach (updNode s cid fun n => { n with object := some oid }) cid oid)
          (Ev.initialProps oid)) := by
  simp only [commitNode]
  rw [hobj, if_pos hp, hop]

theorem commitNode_cat_err (s : HostState) (cid : Nat)
    (hobj : (getNodeD s cid).object = none)
    (hp : ¬ (getNodeD s cid).type = "primitive")
    (hf : assocFind s.catalogue (pascalCase (getNodeD s cid).type) = none) :
    commitNode s cid = Except.error (catErrMsg (getNodeD s cid).type) := by
  simp only [commitNode]
  rw [hobj, if_neg hp, hf]

theorem commitNode_cat_ok (s : HostState) (cid : Nat) (cls : ClassSpec)
    (hobj : (getNodeD s cid).object = none)
    (hp : ¬ (getNodeD s cid).type = "primitive")
    (hf : assocFind s.catalogue (pascalCase (getNodeD s cid).type) = some cls) :
    commitNode s cid
      = Except.ok (pushTrace
          (autoAttach (updNode { s with
              fresh := s.fresh + 1,
              objs := assocSet s.objs s.fresh ⟨cls, [], none, 0⟩,
              trace := s.trace ++ [Ev.constructed s.fresh] }
            cid fun n => { n with object := some s.fresh }) cid s.fresh)
          (Ev.initialProps s.fresh)) := by
  simp only [commitNode]
  rw [hobj, if_neg hp, hf]

theorem insertNode_of_commit_ok (s s1 : HostState) (pid cid : Nat) (bc : Option Nat)
    (hc : commitNode s cid = Except.ok s1) :
    insertNode s pid cid bc = linkPhase s1 pid cid bc := by
  simp only [insertNode]
  rw [hc]

theorem insertNode_of_commit_err (s : HostState) (pid cid : Nat) (bc : Option Nat)
    (e : String) (hc : commitNode s cid = Except.error e) :
    insertNode s pid cid bc = Except.error e := by
  simp only [insertNode]
  rw [hc]

theorem removeNode_trace_commitfree (s : HostState) (pid cid oid : Nat)
    (hobj : (getNodeD s cid).object = some oid) :
    ∃ s' Δ, removeNode s pid cid = Except.ok s' ∧
      (∀ m, (getNodeD s' m).object = (getNodeD s m).object) ∧
      s'.trace = s.trace ++ Δ ∧ (∀ e ∈ Δ, isCommitEv e = false) := by
  obtain ⟨s', mid, hok, hobjp, -, -, -, htr, hmid, -, -⟩ :=
    removeNode_ok_spec s pid cid oid hobj
  refine ⟨s', (Ev.unlinked cid :: mid) ++
      (if (getNodeD s cid).props.disposeNull = false ∧ (getNodeD s cid).type ≠ "primitive"
          ∧ (getObjD s oid).cls.hasDispose = true
       then [Ev.disposed oid] else []), hok, hobjp, ?_, ?_⟩
  · rw [htr, List.append_assoc]
  · intro e he
    rw [List.mem_append] at he
    cases he with
    | inl h1 =>
      rw [List.mem_cons] at h1
      cases h1 with
      | inl h =>
        subst h
        rfl
      | inr h => exact (hmid e h).1
    | inr h2 =>
      split at h2
      · simp only [List.mem_singleton] at h2
        subst h2
        rfl
      · simp at h2

theorem graphPlace_spec (s2 : HostState) (pid : Nat) (bc : Option Nat) (po co : Nat) :
    ∃ s' Δ, graphPlace s2 pid bc po co = Except.ok s' ∧
      (∀ m, (getNodeD s' m).object = (getNodeD s2 m).object) ∧
      s'.trace = s2.trace ++ Δ ∧ (∀ e ∈ Δ, isCommitEv e = false) := by
  simp only [graphPlace]
  cases hbc : bc with
  | none =>
    obtain ⟨⟨mid, htr, hmid⟩, hnodes, -, -⟩ := Object3D_add_spec s2 po co 0
    exact ⟨Object3D_add s2 po co, mid, rfl,
      fun m => by rw [getNodeD_eq_of_nodes hnodes m], htr, fun e he => (hmid e he).1⟩
  | some b =>
    cases hbo : (getNodeD s2 b).object with
    | none =>
      obtain ⟨⟨mid, htr, hmid⟩, hnodes, -, -⟩ := Object3D_add_spec s2 po co 0
      exact ⟨Object3D_add s2 po co, mid, by simp [hbo],
        fun m => by rw [getNodeD_eq_of_nodes hnodes m], htr, fun e he => (hmid e he).1⟩
    | some bo =>
      cases hix : idxOf (getObjD s2 po).childrenO bo with
      | none =>
        obtain ⟨⟨mid, htr, hmid⟩, hnodes, -, -⟩ := Object3D_add_spec s2 po co 0
        exact ⟨Object3D_add s2 po co, mid, by simp [hbo, hix],
          fun m => by rw [getNodeD_eq_of_nodes hnodes m], htr, fun e he => (hmid e he).1⟩
      | some i =>
        obtain ⟨s3, Δ3, hok3, hobj3, htr3, hmid3⟩ :=
          removeNode_trace_commitfree s2 pid b bo hbo
        refine ⟨pushTrace (updObj (updObj s3 co fun d => { d with parentO := some po }) po
            fun d => { d with childrenO := insertIdxJ d.childrenO i co }) (Ev.graphAdded co),
          Δ3 ++ [Ev.graphAdded co], ?_, ?_, ?_, ?_⟩
        · simp [hbo, hix, hok3]
        · intro m
          exact hobj3 m
        · show s3.trace ++ [Ev.graphAdded co] = s2.trace ++ (Δ3 ++ [Ev.graphAdded co])
          rw [htr3, List.append_assoc]
        · intro e he
          rw [List.mem_append] at he
          cases he with
          | inl h => exact hmid3 e h
          | inr h =>
            simp only [List.mem_singleton] at h
            subst h
            rfl

theorem linkPhase_spec (s1 : HostState) (pid cid : Nat) (bc : Option Nat) :
    ∃ s' Δ, linkPhase s1 pid cid bc = Except.ok s' ∧
      (∀ m, (getNodeD s' m).object = (getNodeD s1 m).object) ∧
      s'.trace = s1.trace ++ Δ ∧ (∀ e ∈ Δ, isCommitEv e = false) := by
  simp only [linkPhase]
  set u2 := updNode (updNode s1 cid fun n => { n with parent := some pid })
      pid fun n => { n with children := n.children ++ [cid] } with hu2
  have hpres : ∀ m, (getNodeD u2 m).object = (getNodeD s1 m).object := by
    intro m
    show (getNodeD (updNode (updNode s1 cid fun n => { n with parent := some pid })
        pid fun n => { n with children := n.children ++ [cid] }) m).object
      = (getNodeD s1 m).object
    rw [getNodeD_object_upd _ pid (fun n => { n with children := n.children ++ [cid] }) m
        fun _ => rfl,
      getNodeD_object_upd _ cid (fun n => { n with parent := some pid }) m fun _ => rfl]
  have htr2 : u2.trace = s1.trace := rfl
  by_cases ha : attachTruthy (getNodeD u2 cid).props.attachP = true
  · rw [if_pos ha]
    refine ⟨pushTrace u2 (Ev.attached cid), [Ev.attached cid], rfl, hpres, ?_, ?_⟩
    · show u2.trace ++ [Ev.attached cid] = s1.trace ++ [Ev.attached cid]
      rw [htr2]
    · intro e he
      simp only [List.mem_singleton] at he
      subst he
      rfl
  · rw [if_neg ha]
    by_cases h3 : (nodeObjIs3D u2 pid && nodeObjIs3D u2 cid) = true
    · rw [if_pos h3]
      cases hpo : (getNodeD u2 pid).object with
      | none => exact ⟨u2, [], rfl, hpres, by simp [htr2], by simp⟩
      | some po =>
        cases hco : (getNodeD u2 cid).object with
        | none => exact ⟨u2, [], rfl, hpres, by simp [htr2], by simp⟩
        | some co =>
          obtain ⟨s', Δ, hok, hobjp, htr, hmid⟩ := graphPlace_spec u2 pid bc po co
          exact ⟨s', Δ, hok, fun m => (hobjp m).trans (hpres m), by rw [htr, htr2], hmid⟩
    · rw [if_neg h3]
      exact ⟨u2, [], rfl, hpres, by simp [htr2], by simp⟩

theorem commitfree_counts (Δ : List Ev) (h : ∀ e ∈ Δ, isCommitEv e = false) :
    Δ.countP isConstructedEv = 0 ∧ Δ.countP isInitialPropsEv = 0 := by
  refine ⟨?_, ?_⟩ <;>
    (rw [List.countP_eq_zero]
     intro e he
     have hce := h e he
     cases e <;> simp_all [isCommitEv, isConstructedEv, isInitialPropsEv])

/-! ## C1 -/

/-- C1: the graph object is created at most once and only lazily:
`createElement` allocates the node with no object; an insert that finds the
node committed keeps its object and never constructs again nor re-applies the
initial declared properties (its trace gains no commit events); an insert
that finds the node uncommitted commits it — the object becomes present, with
exactly one construction event for catalogue types and none for primitives
(whose pre-supplied object is linked), and exactly one initial-property
application. -/
theorem c1_lazy_object_creation :
    (∀ (s : HostState) (t : String),
        (getNodeD (createElement t s).1 (createElement t s).2).object = none) ∧
    (∀ (s : HostState) (pid cid : Nat) (bc : Option Nat) (s' : HostState) (oid : Nat),
        (getNodeD s cid).object = some oid →
        insertNode s pid cid bc = Except.ok s' →
        (getNodeD s' cid).object = some oid ∧
        ∃ Δ, s'.trace = s.trace ++ Δ ∧ Δ.countP isCommitEv = 0) ∧
    (∀ (s : HostState) (pid cid : Nat) (bc : Option Nat) (s' : HostState),
        (getNodeD s cid).object = none →
        insertNode s pid cid bc = Except.ok s' →
        ∃ oid Δ, (getNodeD s' cid).object = some oid ∧
          s'.trace = s.trace ++ Δ ∧
          Δ.countP isConstructedEv = (if (getNodeD s cid).type = "primitive" then 0 else 1) ∧
          Δ.countP isInitialPropsEv = 1) := by
  refine ⟨?_, ?_, ?_⟩
  · intro s t
    simp [createElement, getNodeD, assocFind_assocSet_self]
  · intro s pid cid bc s' oid hobj hins
    rw [insertNode_of_commit_ok s s pid cid bc (commitNode_committed s cid oid hobj)] at hins
    obtain ⟨s'', Δ, hok, hobjp, htr, hmid⟩ := linkPhase_spec s pid cid bc
    rw [hok] at hins
    injection hins with h
    subst h
    refine ⟨(hobjp cid).trans hobj, Δ, htr, ?_⟩
    rw [List.countP_eq_zero]
    intro e he
    simp [hmid e he]
  · intro s pid cid bc s' hobj hins
    by_cases hp : (getNodeD s cid).type = "primitive"
    · cases hop : (getNodeD s cid).props.objectP with
      | none =>
        rw [insertNode_of_commit_err s pid cid bc _
          (commitNode_prim_err s cid hobj hp hop)] at hins
        exact Except.noConfusion hins
      | some oid =>
        rw [insertNode_of_commit_ok s _ pid cid bc
          (commitNode_prim_ok s cid oid hobj hp hop)] at hins
        obtain ⟨s'', Δ, hok, hobjp, htr, hmid⟩ := linkPhase_spec
          (pushTrace (autoAttach (updNode s cid fun n => { n with object := some oid })
            cid oid) (Ev.initialProps oid)) pid cid bc
        rw [hok] at hins
        injection hins with h
        subst h
        have hobj1 : (getNodeD (pushTrace (autoAttach (updNode s cid fun n =>
            { n with object := some oid }) cid oid) (Ev.initialProps oid)) cid).object
            = some oid := by
          show (getNodeD (autoAttach (updNode s cid fun n => { n with object := some oid })
            cid oid) cid).object = some oid
          rw [(autoAttach_fields _ cid oid cid).2, getNodeD_updNode, if_pos rfl]
        have htr1 : (pushTrace (autoAttach (updNode s cid fun n =>
            { n with object := some oid }) cid oid) (Ev.initialProps oid)).trace
            = s.trace ++ [Ev.initialProps oid] := by
          show (autoAttach (updNode s cid fun n => { n with object := some oid })
              cid oid).trace ++ [Ev.initialProps oid] = _
          rw [(autoAttach_fields _ cid oid 0).1]
          rfl
        refine ⟨oid, [Ev.initialProps oid] ++ Δ, (hobjp cid).trans hobj1, ?_, ?_, ?_⟩
        · rw [htr, htr1, List.append_assoc]
        · rw [List.countP_append, if_pos hp, (commitfree_counts Δ hmid).1]
          rfl
        · rw [List.countP_append, (commitfree_counts Δ hmid).2]
          rfl
    · cases hf : assocFind s.catalogue (pascalCase (getNodeD s cid).type) with
      | none =>
        rw [insertNode_of_commit_err s pid cid bc _
          (commitNode_cat_err s cid hobj hp hf)] at hins
        exact Except.noConfusion hins
      | some cls =>
        rw [insertNode_of_commit_ok s _ pid cid bc
          (commitNode_cat_ok s cid cls hobj hp hf)] at hins
        set sC : HostState := { s with
          fresh := s.fresh + 1,
          objs := assocSet s.objs s.fresh ⟨cls, [], none, 0⟩,
          trace := s.trace ++ [Ev.constructed s.fresh] } with hsC
        obtain ⟨s'', Δ, hok, hobjp, htr, hmid⟩ := linkPhase_spec
          (pushTrace (autoAttach (updNode sC cid fun n => { n with object := some s.fresh })
            cid s.fresh) (Ev.initialProps s.fresh)) pid cid bc
        rw [hok] at hins
        injection hins with h
        subst h
        have hobj1 : (getNodeD (pushTrace (autoAttach (updNode sC cid fun n =>
            { n with object := some s.fresh }) cid s.fresh) (Ev.initialProps s.fresh))
            cid).object = some s.fresh := by
          show (getNodeD (autoAttach (updNode sC cid fun n =>
            { n with object := some s.fresh }) cid s.fresh) cid).object = some s.fresh
          rw [(autoAttach_fields _ cid s.fresh cid).2, getNodeD_updNode, if_pos rfl]
        have htr1 : (pushTrace (autoAttach (updNode sC cid fun n =>
            { n with object := some s.fresh }) cid s.fresh) (Ev.initialProps s.fresh)).trace
            = s.trace ++ [Ev.constructed s.fresh, Ev.initialProps s.fresh] := by
          show (autoAttach (updNode sC cid fun n => { n with object := some s.fresh })
              cid s.fresh).trace ++ [Ev.initialProps s.fresh] = _
          rw [(autoAttach_fields _ cid s.fresh 0).1]
          show sC.trace ++ [Ev.initialProps s.fresh] = _
          rw [hsC]
          simp
        refine ⟨s.fresh, [Ev.constructed s.fresh, Ev.initialProps s.fresh] ++ Δ,
          (hobjp cid).trans hobj1, ?_, ?_, ?_⟩
        · rw [htr, htr1, List.append_assoc]
        · rw [List.countP_append, if_neg hp, (commitfree_counts Δ hmid).1]
          rfl
        · rw [List.countP_append, (commitfree_counts Δ hmid).2]
          rfl

/-- Witness for C1 at a concrete uncommitted catalogue-type insert. -/
theorem c1_witness :
    (getNodeD c5s 3).object = none ∧
    insertNode c5s 0 3 none = Except.ok c1sInserted ∧
    (∃ oid Δ, (getNodeD c1sInserted 3).object = some oid ∧
      c1sInserted.trace = c5s.trace ++ Δ ∧
      Δ.countP isConstructedEv = (if (getNodeD c5s 3).type = "primitive" then 0 else 1) ∧
      Δ.countP isInitialPropsEv = 1) :=
  ⟨by decide, rfl, c1_lazy_object_creation.2.2 c5s 0 3 none c1sInserted (by decide) rfl⟩

/-! ## C5 -/

/-- C5: for an uncommitted child, the commit inside `insertNode` fails with a
synchronously thrown error in exactly two cases — a primitive node with no
`object` prop (with the primitive error message), and a type name whose
first-letter-capitalised form is absent from the catalogue (with the
catalogue error message); there is no other error and no silent fallback. -/
theorem c5_commit_error_cases (s : HostState) (pid cid : Nat) (bc : Option Nat)
    (hobj : (getNodeD s cid).object = none) :
    ((getNodeD s cid).type = "primitive" ∧ (getNodeD s cid).props.objectP = none →
      insertNode s pid cid bc = Except.error primErrMsg) ∧
    ((getNodeD s cid).type ≠ "primitive" ∧
        assocFind s.catalogue (pascalCase (getNodeD s cid).type) = none →
      insertNode s pid cid bc = Except.error (catErrMsg (getNodeD s cid).type)) ∧
    ((∃ e, insertNode s pid cid bc = Except.error e) ↔
      ((getNodeD s cid).type = "primitive" ∧ (getNodeD s cid).props.objectP = none) ∨
      ((getNodeD s cid).type ≠ "primitive" ∧
        assocFind s.catalogue (pascalCase (getNodeD s cid).type) = none)) := by
  refine ⟨?_, ?_, ?_, ?_⟩
  · rintro ⟨hp, hop⟩
    exact insertNode_of_commit_err s pid cid bc _ (commitNode_prim_err s cid hobj hp hop)
  · rintro ⟨hp, hf⟩
    exact insertNode_of_commit_err s pid cid bc _ (commitNode_cat_err s cid hobj hp hf)
  · rintro ⟨e, he⟩
    by_cases hp : (getNodeD s cid).type = "primitive"
    · cases hop : (getNodeD s cid).props.objectP with
      | none => exact Or.inl ⟨hp, rfl⟩
      | some oid =>
        rw [insertNode_of_commit_ok s _ pid cid bc
          (commitNode_prim_ok s cid oid hobj hp hop)] at he
        obtain ⟨s'', Δ, hok, -, -, -⟩ := linkPhase_spec _ pid cid bc
        rw [hok] at he
        exact Except.noConfusion he
    · cases hf : assocFind s.catalogue (pascalCase (getNodeD s cid).type) with
      | none => exact Or.inr ⟨hp, rfl⟩
      | some cls =>
        rw [insertNode_of_commit_ok s _ pid cid bc
          (commitNode_cat_ok s cid cls hobj hp hf)] at he
        obtain ⟨s'', Δ, hok, -, -, -⟩ := linkPhase_spec _ pid cid bc
        rw [hok] at he
        exact Except.noConfusion he
  · rintro (⟨hp, hop⟩ | ⟨hp, hf⟩)
    · exact ⟨primErrMsg,
        insertNode_of_commit_err s pid cid bc _ (commitNode_prim_err s cid hobj hp hop)⟩
    · exact ⟨catErrMsg (getNodeD s cid).type,
        insertNode_of_commit_err s pid cid bc _ (commitNode_cat_err s cid hobj hp hf)⟩

/-- Witness for C5 at the concrete primitive-without-object insert. -/
theorem c5_witness :
    (getNodeD c5s 1).object = none ∧
    (((getNodeD c5s 1).type = "primitive" ∧ (getNodeD c5s 1).props.objectP = none →
        insertNode c5s 0 1 none = Except.error primErrMsg) ∧
      ((getNodeD c5s 1).type ≠ "primitive" ∧
          assocFind c5s.catalogue (pascalCase (getNodeD c5s 1).type) = none →
        insertNode c5s 0 1 none = Except.error (catErrMsg (getNodeD c5s 1).type)) ∧
      ((∃ e, insertNode c5s 0 1 none = Except.error e) ↔
        ((getNodeD c5s 1).type = "primitive" ∧ (getNodeD c5s 1).props.objectP = none) ∨
        ((getNodeD c5s 1).type ≠ "primitive" ∧
          assocFind c5s.catalogue (pascalCase (getNodeD c5s 1).type) = none))) :=
  ⟨by decide, c5_commit_error_cases c5s 0 1 none (by decide)⟩

/-! ## C4 -/

/-- C4 (the code evaluated at the failing input): inserting uncommitted child
node 2 before sibling node 1, whose object 1 occupies graph slot 0 of parent
object 0, the host finds the sibling's graph index, removes the sibling node
via `removeNode` — unlinking it from the parent node's children, removing and
disposing its object — and then splices the new object 10 at slot 0: after
the insert the parent object's children are `[10]`, object 1 is gone from the
graph (index `none`) with dispose count 1, and the parent node's children are
`[2]`.  The previous occupant is dropped and disposed, not shifted to the
next slot. -/
theorem c4_before_child_dropped :
    (match insertNode c4s 0 2 (some 1) with
      | Except.ok s => some ((getObjD s 0).childrenO, idxOf (getObjD s 0).childrenO 1,
          (getObjD s 1).disposeCount, (getNodeD s 0).children)
      | Except.error _ => none)
      = some ([10], none, 1, [2]) := by decide

/-! ## C8 -/

/-- C8 (the code evaluated at the failing input): node 1 is the first of
parent node 0's two children `[1, 2]`, yet `getNextSibling` returns nothing
instead of node 2, because after computing the index in the parent's children
the code reads `node.children[index + 1]` — the node's own children — instead
of the parent's; node 3, which has parent 0 and its own child 7, even yields
that child. -/
theorem c8_next_sibling_wrong_list :
    (getNodeD c8s 0).children = [1, 2] ∧
    (getNodeD c8s 1).parent = some 0 ∧
    getNextSibling c8s 1 = Except.ok none ∧
    (getNodeD c8s 3).parent = some 0 ∧
    getNextSibling c8s 3 = Except.ok (some 7) :=
  ⟨by decide, by decide, rfl, by decide, rfl⟩

end SolidThree
